import Mathlib

/-!
Verification of the karabo_data `reader2` module (`src/karabo_data/reader2.py`)
against its natural-language specification.

The Python module is shallowly embedded: HDF5 files become explicit records of
the datasets the reader touches, `DataCollection` becomes a record of its five
mutable attributes, pure methods become Lean functions, methods that raise become
`Except String` computations (the string is the exception rendered as text), and
the two places where a method mutates its receiver (the per-source key cache
filled by `_keys_for_source`, and the per-(source, key) dataset cache of
`TrainIterator`) are modelled by explicit state passing.

Python `set` objects become `Finset`, Python `dict` objects become association
lists in insertion order, and numpy integer arrays become `List Nat` (counts and
train IDs are unsigned in the files).  Where a Python set is iterated (its order
is arbitrary but the results below are order-insensitive) the embedding iterates
the sorted list of elements.
-/

namespace KaraboData

/-! ### Generic association-list and list helpers -/

/-- Equality of `Except` results is decidable componentwise; used to state and
check concrete evaluations of the embedded operations. -/
instance {ε α : Type} [DecidableEq ε] [DecidableEq α] : DecidableEq (Except ε α) :=
  fun x y =>
    match x, y with
    | .ok a, .ok b => if h : a = b then .isTrue (by simp [h]) else .isFalse (by simp [h])
    | .error a, .error b =>
        if h : a = b then .isTrue (by simp [h]) else .isFalse (by simp [h])
    | .ok _, .error _ => .isFalse (by simp)
    | .error _, .ok _ => .isFalse (by simp)

/-- Lookup in an association list (a Python dict read, first match wins;
Python dicts cannot hold duplicate keys, and the embedding only appends a key
that is absent, so first match agrees with the dict). -/
def alookup {α β : Type} [DecidableEq α] : List (α × β) → α → Option β
  | [], _ => none
  | (k, v) :: rest, a => if a = k then some v else alookup rest a

/-- Python dict assignment `d[k] = v`: replace in place if the key exists
(dicts keep the original position), otherwise append at the end. -/
def aupsert {α β : Type} [DecidableEq α] : List (α × β) → α → β → List (α × β)
  | [], k, v => [(k, v)]
  | (k2, v2) :: rest, k, v =>
      if k = k2 then (k2, v) :: rest else (k2, v2) :: aupsert rest k v

/-- First index of a value in a list: `list.index` / `(arr == x).nonzero()[0][0]`. -/
def listIndexOf : List Nat → Nat → Option Nat
  | [], _ => none
  | y :: ys, x => if y = x then some 0 else (listIndexOf ys x).map (· + 1)

/-- Insert into a list sorted by a boolean comparison, before the first element
the new element compares `le` to (this makes the sort below stable, like
Python `sorted`). -/
def insertSortedBy {α : Type} (le : α → α → Bool) (x : α) : List α → List α
  | [] => [x]
  | y :: ys => if le x y then x :: y :: ys else y :: insertSortedBy le x ys

/-- Stable insertion sort, the embedding of Python `sorted(..., key=...)`. -/
def sortListBy {α : Type} (le : α → α → Bool) : List α → List α
  | [] => []
  | x :: xs => insertSortedBy le x (sortListBy le xs)

theorem perm_insertSortedBy {α : Type} (le : α → α → Bool) (x : α) (l : List α) :
    (insertSortedBy le x l).Perm (x :: l) := by
  induction l with
  | nil => exact .refl _
  | cons y ys ih =>
      simp only [insertSortedBy]
      split
      · exact .refl _
      · exact (ih.cons y).trans (List.Perm.swap x y ys)

theorem perm_sortListBy {α : Type} (le : α → α → Bool) (l : List α) :
    (sortListBy le l).Perm l := by
  induction l with
  | nil => exact .refl _
  | cons x xs ih =>
      exact (perm_insertSortedBy le x (sortListBy le xs)).trans (ih.cons x)

theorem pairwise_insertSortedBy {α : Type} (le : α → α → Bool)
    (htot : ∀ a b, le a b = true ∨ le b a = true)
    (htrans : ∀ a b c, le a b = true → le b c = true → le a c = true)
    (x : α) (l : List α) (h : l.Pairwise (fun a b => le a b = true)) :
    (insertSortedBy le x l).Pairwise (fun a b => le a b = true) := by
  induction l with
  | nil => simp [insertSortedBy]
  | cons y ys ih =>
      simp only [insertSortedBy]
      split
      · rename_i hxy
        refine List.Pairwise.cons ?_ h
        intro z hz
        rcases List.mem_cons.mp hz with rfl | hz2
        · exact hxy
        · exact htrans x y z hxy (List.rel_of_pairwise_cons h hz2)
      · rename_i hxy
        have hyx : le y x = true := by
          rcases htot x y with h1 | h1
          · exact absurd h1 hxy
          · exact h1
        refine List.Pairwise.cons ?_ (ih h.of_cons)
        intro z hz
        rcases (perm_insertSortedBy le x ys).mem_iff.mp hz with hz2
        rcases List.mem_cons.mp hz2 with rfl | hz3
        · exact hyx
        · exact List.rel_of_pairwise_cons h hz3

theorem pairwise_sortListBy {α : Type} (le : α → α → Bool)
    (htot : ∀ a b, le a b = true ∨ le b a = true)
    (htrans : ∀ a b c, le a b = true → le b c = true → le a c = true)
    (l : List α) : (sortListBy le l).Pairwise (fun a b => le a b = true) := by
  induction l with
  | nil => simp [sortListBy]
  | cons x xs ih => exact pairwise_insertSortedBy le htot htrans x _ ih

/-- Embedding of Python `sorted(set(l))`: de-duplicate, then sort ascending. -/
def sortedSet (l : List Nat) : List Nat := sortListBy (· ≤ ·) l.dedup

/-- Python `str.partition(sep)` on a single-character separator, returning the
text before and after the first occurrence (the whole string and `""` when the
separator does not occur; the Python middle component is never used by the
reader). -/
def partitionChar (sep : Char) : List Char → List Char × List Char
  | [] => ([], [])
  | c :: cs =>
      if c = sep then ([], cs)
      else
        let p := partitionChar sep cs
        (c :: p.1, p.2)

/-- Suffix test on strings, `str.endswith`. -/
def endsWithStr (s suffix : String) : Bool := suffix.toList.isSuffixOf s.toList

/-! ### fnmatch-style glob matching

`_select_glob` compiles source and key globs with `fnmatch.translate` and
matches whole names with `re.match` (the translated pattern is anchored with a
final backslash-Z).  The embedding below implements the same language
directly on character lists: a star matches any character sequence, a question
mark matches one character, every other character matches itself.  The
character-class syntax of fnmatch is not exercised by any claim and is omitted.
The recursion is driven by explicit fuel so that the function is structurally
recursive; the fuel `pattern.length + name.length + 1` always suffices because
every step shortens the pattern or the name. -/

def globMatchFuel : Nat → List Char → List Char → Bool
  | 0, _, _ => false
  | _ + 1, [], k => k.isEmpty
  | fuel + 1, '*' :: p, k =>
      globMatchFuel fuel p k ||
        (match k with
         | [] => false
         | _ :: k2 => globMatchFuel fuel ('*' :: p) k2)
  | fuel + 1, '?' :: p, k =>
      (match k with
       | [] => false
       | _ :: k2 => globMatchFuel fuel p k2)
  | fuel + 1, c :: p, k =>
      (match k with
       | [] => false
       | d :: k2 => c = d && globMatchFuel fuel p k2)

/-- Whole-name glob match, the embedding of
`re.compile(fnmatch.translate(pattern)).match(name)` viewed as a boolean. -/
def globMatch (pattern name : String) : Bool :=
  globMatchFuel (pattern.toList.length + name.toList.length + 1) pattern.toList name.toList

/-! ### The file model

`h5py.File` is modelled by the parts of the file the reader reads:

* `fileId` stands for the identity of the open file handle (Python keys the
  index cache on the `File` object itself, so two files with equal content but
  distinct handles are distinct keys);
* `indexTrainIds` is the raw `INDEX/trainId` dataset (zeros still present);
* `dataSourceIds` is the decoded `METADATA/dataSourceId` list;
* `indexFirsts` and `indexCounts` give, per `(source, group)`, the datasets
  under `INDEX/<source>/<group>`: `first` is always present, and the count is
  either stored directly or derived from `last` and `status`;
* `datasets` maps a full dataset path to its rows; a row is an opaque `Nat`
  (the reader never inspects row contents, only how many rows it takes and in
  which order it concatenates them);
* `visitKeys` maps a group path (`/CONTROL/<source>` or `/INSTRUMENT/<source>`)
  to the set of dotted keys `visititems` collects under it. -/

/-- Per-(source, group) index area of a file: `first` plus either a stored
`count` or the pair `last`, `status` from which the count is derived. -/
inductive IndexArea : Type
  | withCount (first count : List Nat)
  | lastStatus (first last status : List Nat)
deriving DecidableEq

structure H5File where
  fileId : Nat
  indexTrainIds : List Nat
  dataSourceIds : List String
  indexAreas : List ((String × String) × IndexArea)
  datasets : List (String × List Nat)
  visitKeys : List (String × Finset String)
deriving DecidableEq

/-- One registry segment: the train IDs of a file paired with the file. -/
abbrev Segment : Type := List Nat × H5File

/-- The `DataCollection` attributes set up in `__init__`. -/
structure DataCollection where
  instrument_sources : Finset String
  control_sources : Finset String
  train_ids : List Nat
  source_file_mapping : List (String × List Segment)
  index_cache : List ((Nat × String × String) × (List Nat × List Nat))
  source_keys : List (String × Finset String)
deriving DecidableEq

/-- The empty collection built by `DataCollection.__init__`. -/
def emptyDC : DataCollection := ⟨∅, ∅, [], [], [], []⟩

/-- The `all_sources` property: instrument sources unioned with control sources. -/
def DataCollection.all_sources (dc : DataCollection) : Finset String :=
  dc.instrument_sources ∪ dc.control_sources

/-- Lexicographic comparison of char lists by code point, written structurally
so that it evaluates by kernel reduction. -/
def charListLe : List Char → List Char → Bool
  | [], _ => true
  | _ :: _, [] => false
  | a :: as, b :: bs =>
      if a.toNat < b.toNat then true
      else if b.toNat < a.toNat then false
      else charListLe as bs

theorem charListLe_cons (a b : Char) (as bs : List Char) :
    charListLe (a :: as) (b :: bs)
      = if a.toNat < b.toNat then true
        else if b.toNat < a.toNat then false else charListLe as bs := rfl

/-- Boolean string comparison used to order iteration over string sets. -/
def strLe (a b : String) : Bool := charListLe a.toList b.toList

theorem charListLe_total (l1 : List Char) : ∀ (l2 : List Char),
    charListLe l1 l2 = true ∨ charListLe l2 l1 = true := by
  induction l1 with
  | nil => intro l2; left; rfl
  | cons a as ih =>
      intro l2
      cases l2 with
      | nil => right; rfl
      | cons b bs =>
          rw [charListLe_cons, charListLe_cons]
          rcases Nat.lt_trichotomy a.toNat b.toNat with hab | hab | hab
          · left; rw [if_pos hab]
          · have g1 : ¬ a.toNat < b.toNat := by omega
            have g2 : ¬ b.toNat < a.toNat := by omega
            rw [if_neg g1, if_neg g2, if_neg g2, if_neg g1]
            exact ih bs
          · right; rw [if_pos hab]

theorem charListLe_trans (l1 : List Char) : ∀ (l2 l3 : List Char),
    charListLe l1 l2 = true → charListLe l2 l3 = true → charListLe l1 l3 = true := by
  induction l1 with
  | nil => intro l2 l3 _ _; rfl
  | cons a as ih =>
      intro l2 l3 h1 h2
      cases l2 with
      | nil => exact absurd h1 (by simp [charListLe])
      | cons b bs =>
          cases l3 with
          | nil => exact absurd h2 (by simp [charListLe])
          | cons c cs =>
              rw [charListLe_cons] at h1 h2 ⊢
              rcases Nat.lt_trichotomy a.toNat b.toNat with hab | hab | hab <;>
                rcases Nat.lt_trichotomy b.toNat c.toNat with hbc | hbc | hbc
              · have g : a.toNat < c.toNat := by omega
                rw [if_pos g]
              · have g : a.toNat < c.toNat := by omega
                rw [if_pos g]
              · have g1 : ¬ b.toNat < c.toNat := by omega
                rw [if_neg g1, if_pos hbc] at h2
                cases h2
              · have g : a.toNat < c.toNat := by omega
                rw [if_pos g]
              · have g1 : ¬ a.toNat < b.toNat := by omega
                have g2 : ¬ b.toNat < a.toNat := by omega
                have g3 : ¬ b.toNat < c.toNat := by omega
                have g4 : ¬ c.toNat < b.toNat := by omega
                have g5 : ¬ a.toNat < c.toNat := by omega
                have g6 : ¬ c.toNat < a.toNat := by omega
                rw [if_neg g1, if_neg g2] at h1
                rw [if_neg g3, if_neg g4] at h2
                rw [if_neg g5, if_neg g6]
                exact ih bs cs h1 h2
              · have g1 : ¬ b.toNat < c.toNat := by omega
                rw [if_neg g1, if_pos hbc] at h2
                cases h2
              · have g1 : ¬ a.toNat < b.toNat := by omega
                rw [if_neg g1, if_pos hab] at h1
                cases h1
              · have g1 : ¬ a.toNat < b.toNat := by omega
                rw [if_neg g1, if_pos hab] at h1
                cases h1
              · have g1 : ¬ a.toNat < b.toNat := by omega
                rw [if_neg g1, if_pos hab] at h1
                cases h1

theorem charListLe_antisymm (l1 : List Char) : ∀ (l2 : List Char),
    charListLe l1 l2 = true → charListLe l2 l1 = true → l1 = l2 := by
  induction l1 with
  | nil =>
      intro l2 _ h2
      cases l2 with
      | nil => rfl
      | cons b bs => exact absurd h2 (by simp [charListLe])
  | cons a as ih =>
      intro l2 h1 h2
      cases l2 with
      | nil => exact absurd h1 (by simp [charListLe])
      | cons b bs =>
          rw [charListLe_cons] at h1 h2
          rcases Nat.lt_trichotomy a.toNat b.toNat with hab | hab | hab
          · have g : ¬ b.toNat < a.toNat := by omega
            rw [if_neg g, if_pos hab] at h2
            cases h2
          · have g1 : ¬ a.toNat < b.toNat := by omega
            have g2 : ¬ b.toNat < a.toNat := by omega
            rw [if_neg g1, if_neg g2] at h1
            rw [if_neg g2, if_neg g1] at h2
            have hcab : a = b := by
              have h := Char.ofNat_toNat a
              rw [hab, Char.ofNat_toNat b] at h
              exact h.symm
            rw [hcab, ih bs h1 h2]
          · have g : ¬ a.toNat < b.toNat := by omega
            rw [if_neg g, if_pos hab] at h1
            cases h1

theorem strLe_total (a b : String) : strLe a b = true ∨ strLe b a = true :=
  charListLe_total a.toList b.toList

theorem strLe_trans (a b c : String) (h1 : strLe a b = true) (h2 : strLe b c = true) :
    strLe a c = true :=
  charListLe_trans a.toList b.toList c.toList h1 h2

theorem strLe_antisymm (a b : String) (h1 : strLe a b = true) (h2 : strLe b a = true) :
    a = b := by
  have h := charListLe_antisymm a.toList b.toList h1 h2
  cases a with
  | mk d1 =>
      cases b with
      | mk d2 =>
          simp only [String.toList] at h
          rw [h]

theorem sortListBy_strLe_perm_invariant (l1 l2 : List String) (h : l1.Perm l2) :
    sortListBy strLe l1 = sortListBy strLe l2 := by
  haveI : IsAntisymm String (fun a b => strLe a b = true) :=
    ⟨fun a b h1 h2 => strLe_antisymm a b h1 h2⟩
  refine List.eq_of_perm_of_sorted (r := fun a b => strLe a b = true)
    ((perm_sortListBy _ l1).trans (h.trans (perm_sortListBy _ l2).symm)) ?_ ?_
  · exact pairwise_sortListBy strLe strLe_total strLe_trans l1
  · exact pairwise_sortListBy strLe strLe_total strLe_trans l2

/-- The sorted list of a string finset; used wherever Python iterates a set of
source names (set order is arbitrary in Python, and every result proved below
is insensitive to it).  Implemented by lifting the insertion sort through the
multiset quotient so that it evaluates by plain structural recursion. -/
def sortedSources (s : Finset String) : List String :=
  Quot.liftOn s.val (fun l => sortListBy strLe l)
    (fun _ _ h => sortListBy_strLe_perm_invariant _ _ h)

theorem mem_sortedSources {a : String} {s : Finset String} :
    a ∈ sortedSources s ↔ a ∈ s := by
  rcases s with ⟨val, nd⟩
  induction val using Quot.inductionOn with
  | h l =>
      show a ∈ sortListBy strLe l ↔ _
      rw [(perm_sortListBy strLe l).mem_iff]
      rfl

/-! ### Reading datasets and index areas -/

/-- Reading a dataset node: `file[path]`; a missing path raises `KeyError`. -/
def lookupDataset (f : H5File) (path : String) : Except String (List Nat) :=
  match alookup f.datasets path with
  | some rows => .ok rows
  | none => .error ("KeyError: " ++ path)

/-- 64-bit wrap-around for the numpy uint64 arithmetic in `_read_index`. -/
def u64 (n : Nat) : Nat := n % 2 ^ 64

/-- uint64 subtraction with wrap-around. -/
def u64sub (a b : Nat) : Nat := (2 ^ 64 + u64 a - u64 b) % 2 ^ 64

/-- `DataCollection._read_index`: read `first` and `count` for a source and
group; when no `count` dataset exists the count is
`np.uint64((last - first + 1) * status)` computed elementwise (numpy pairs the
arrays positionally; the embedding truncates to the shortest length where numpy
would insist on equal shapes). -/
def readIndex (f : H5File) (source grp : String) : Except String (List Nat × List Nat) :=
  match alookup f.indexAreas (source, grp) with
  | none => .error ("KeyError: /INDEX/" ++ source ++ "/" ++ grp)
  | some (.withCount first count) => .ok (first, count)
  | some (.lastStatus first last status) =>
      .ok (first, (first.zip (last.zip status)).map
        (fun fls => u64 (u64 (u64sub fls.2.1 fls.1 + 1) * u64 fls.2.2)))

/-- `DataCollection._get_index`: consult the `(file, source, group)` cache
first, fall back to `_read_index`.  The Python method also inserts the result
into the cache; that write never changes the outcome of any call made while a
single public operation runs (each `(file, source, group)` triple is consulted
with the same cache contents it would be inserted with), so the embedding
returns the value only. -/
def getIndexPure (dc : DataCollection) (f : H5File) (source grp : String) :
    Except String (List Nat × List Nat) :=
  match alookup dc.index_cache (f.fileId, source, grp) with
  | some v => .ok v
  | none => readIndex f source grp

/-- The Python `key.replace('.', '/')` (keys are dotted paths; the separator
is a single character so the replacement is a character map). -/
def keySlashed (key : String) : String :=
  String.mk (key.toList.map (fun c => if c = '.' then '/' else c))

/-- The leading dotted component of a key: `key.partition('.')[0]`. -/
def keyGroup (key : String) : String :=
  String.mk (partitionChar '.' key.toList).1

/-- `DataCollection._keys_for_source`, result only: raise `SourceNameError` for
an unknown source, return the cached key set when one is stored, otherwise
collect the keys of the first registry segment of the source from its file.
Python falls off the end of the loop (returning `None`, which makes the caller
crash with a `TypeError`) when the source has an empty segment list; the
embedding reports that as an error value. -/
def keysForSourcePureDocAnchor : Unit := ()

/-- The group visited for the keys of a source: `/CONTROL/<source>` for a
control source, `/INSTRUMENT/<source>` otherwise. -/
def keysGroupPath (dc : DataCollection) (source : String) : String :=
  (if source ∈ dc.control_sources then "/CONTROL/" else "/INSTRUMENT/") ++ source

def keysForSourcePure (dc : DataCollection) (source : String) : Except String (Finset String) :=
  if source ∈ dc.all_sources then
    match alookup dc.source_keys source with
    | some ks => .ok ks
    | none =>
        match alookup dc.source_file_mapping source with
        | none => .error ("KeyError: " ++ source)
        | some [] => .error "TypeError: NoneType returned from keys lookup"
        | some ((_, f) :: _) =>
            match alookup f.visitKeys (keysGroupPath dc source) with
            | some ks => .ok ks
            | none => .error ("KeyError: " ++ keysGroupPath dc source)
  else .error ("SourceNameError: " ++ source)

/-- `DataCollection._keys_for_source` with its receiver mutation: when the keys
are read from a file they are also stored in `self._source_keys`.  Returns the
result together with the updated collection. -/
def keysForSource (dc : DataCollection) (source : String) :
    Except String (Finset String) × DataCollection :=
  if source ∈ dc.all_sources then
    match alookup dc.source_keys source with
    | some ks => (.ok ks, dc)
    | none =>
        match alookup dc.source_file_mapping source with
        | none => (.error ("KeyError: " ++ source), dc)
        | some [] => (.error "TypeError: NoneType returned from keys lookup", dc)
        | some ((_, f) :: _) =>
            match alookup f.visitKeys (keysGroupPath dc source) with
            | some ks =>
                (.ok ks, { dc with source_keys := dc.source_keys ++ [(source, ks)] })
            | none => (.error ("KeyError: " ++ keysGroupPath dc source), dc)
  else (.error ("SourceNameError: " ++ source), dc)

/-- `DataCollection._check_field`: unknown source raises `SourceNameError`,
a key absent from `_keys_for_source` raises `PropertyNameError`. -/
def checkField (dc : DataCollection) (source key : String) : Except String Unit :=
  if source ∈ dc.all_sources then
    match keysForSourcePure dc source with
    | .error e => .error e
    | .ok ks => if key ∈ ks then .ok () else .error ("PropertyNameError: " ++ key)
  else .error ("SourceNameError: " ++ source)

/-- `counts.astype(np.intp)` on one uint64 value: the same 64 bits read as a
signed integer, so a value at or above `2 ^ 63` comes out negative. -/
def intp64 (n : Nat) : Int :=
  if u64 n < 2 ^ 63 then (u64 n : Int) else (u64 n : Int) - 2 ^ 64

/-- The repetition `np.repeat` performs once every cast count is known
non-negative: each train ID repeated its (uint64) count many times, the two
arrays paired positionally up to the shorter length. -/
def repeatTids (counts trainIds : List Nat) : List Nat :=
  (trainIds.zip counts).flatMap (fun tc => List.replicate (u64 tc.2) tc.1)

/-- `DataCollection._expand_trainids`: truncate `counts` and `trainIds` to the
shorter length `n = min(len(counts), len(trainIds))`, reinterpret the uint64
counts as signed `np.intp`, and repeat each train ID its count many times
(`np.repeat(trainIds[:n], counts.astype(np.intp)[:n])`; the `first` argument
is unused by the Python method too).  A count at or above `2 ^ 63` casts to a
negative repeat length, on which `np.repeat` raises `ValueError`. -/
def expandTrainids (_first counts trainIds : List Nat) :
    Except String (List Nat) :=
  if (trainIds.zip counts).any (fun tc => decide (intp64 tc.2 < 0)) then
    .error "ValueError: negative dimensions are not allowed"
  else .ok (repeatTids counts trainIds)

/-- `DataCollection._find_data`: scan the registry segments of a source in
order and return the file and position of the first segment whose train-ID
array contains the train; `None` when no segment does.  A source missing from
the registry raises `KeyError`. -/
def findDataSegs : List Segment → Nat → Option (H5File × Nat)
  | [], _ => none
  | (tids, f) :: rest, tid =>
      match listIndexOf tids tid with
      | some ix => some (f, ix)
      | none => findDataSegs rest tid

/-- `DataCollection._find_data` proper: `KeyError` when the source is missing
from the registry, otherwise the scan above. -/
def findDataDC (dc : DataCollection) (source : String) (tid : Nat) :
    Except String (Option (H5File × Nat)) :=
  match alookup dc.source_file_mapping source with
  | none => .error ("KeyError: " ++ source)
  | some segs => .ok (findDataSegs segs tid)

/-! ### Train-ID range resolution -/

/-- `_tid_to_slice_ix`: convert one endpoint of a by-ID range into a position
in `train_ids`.  A present ID resolves to its index.  An absent ID below the
first known ID resolves to the beginning for a start endpoint and raises
`ValueError` (before this run) for a stop endpoint; symmetrically above the
last known ID.  An absent ID strictly inside the span reaches
`(train_ids > tid).nonzero()`, but `train_ids` is a Python list, not a numpy
array, so comparing it with an integer raises `TypeError` (the code comment
says the intent is the position of the first greater ID). -/
def tidToSliceIx (tid : Option Nat) (train_ids : List Nat) (stop : Bool) :
    Except String (Option Nat) :=
  match tid with
  | none => .ok none
  | some t =>
      match listIndexOf train_ids t with
      | some i => .ok (some i)
      | none =>
          match train_ids with
          | [] => .error "IndexError: list index out of range"
          | t0 :: rest =>
              if t < t0 then
                if stop then
                  .error ("ValueError: Train ID " ++ toString t
                    ++ " is before this run (starts at " ++ toString t0 ++ ")")
                else .ok none
              else if t > (t0 :: rest).getLastD 0 then
                if stop then .ok none
                else
                  .error ("ValueError: Train ID " ++ toString t
                    ++ " is after this run (ends at "
                    ++ toString ((t0 :: rest).getLastD 0) ++ ")")
              else .error "TypeError: comparison of list and int is not supported"

/-! ### Python slice semantics

`select_trains` applies `self.train_ids[ix_slice]` where `ix_slice` is an
ordinary Python slice.  The functions below implement CPython slice index
adjustment (`PySlice_AdjustIndices`) and element extraction.  A zero step
raises `ValueError`. -/

/-- Clamp the optional start index of a slice for a list of length `n`. -/
def sliceStartIx (start : Option Int) (st : Int) (n : Nat) : Int :=
  let lower : Int := if st < 0 then -1 else 0
  let upper : Int := if st < 0 then (n : Int) - 1 else (n : Int)
  match start with
  | none => if st < 0 then upper else lower
  | some v => if v < 0 then max lower (v + (n : Int)) else min v upper

/-- Clamp the optional stop index of a slice for a list of length `n`. -/
def sliceStopIx (stop : Option Int) (st : Int) (n : Nat) : Int :=
  let lower : Int := if st < 0 then -1 else 0
  let upper : Int := if st < 0 then (n : Int) - 1 else (n : Int)
  match stop with
  | none => if st < 0 then lower else upper
  | some v => if v < 0 then max lower (v + (n : Int)) else min v upper

/-- Number of elements a slice produces once its endpoints are adjusted. -/
def sliceCount (start stop st : Int) : Nat :=
  if st > 0 then ((stop - start + st - 1) / st).toNat
  else ((start - stop + (-st) - 1) / (-st)).toNat

/-- Python list slicing `l[start:stop:step]`; `none` models the `ValueError`
raised on a zero step. -/
def pySlice {α : Type} (start stop step : Option Int) (l : List α) : Option (List α) :=
  if step.getD 1 = 0 then none
  else
    some ((List.range (sliceCount (sliceStartIx start (step.getD 1) l.length)
        (sliceStopIx stop (step.getD 1) l.length) (step.getD 1))).filterMap
      (fun k : Nat => l.get? (sliceStartIx start (step.getD 1) l.length
        + (k : Int) * step.getD 1).toNat))

/-- The two opaque range descriptors consumed by `select_trains`.
Modelled from the spec: `by_id` carries a start/stop/step slice in train-ID
space and `by_index` an ordinary positional slice; the reader only consumes
them through their `.value` slice. -/
inductive TrainRange : Type
  | by_id (start stop : Option Nat) (step : Option Int)
  | by_index (start stop step : Option Int)
deriving DecidableEq

/-! ### Building a collection: `add_file` -/

/-- Categorise one `METADATA/dataSourceId` entry.  The prefix before the first
slash is the category; an instrument identifier is reduced to device:channel
(the trailing group qualifier is discarded); a control identifier keeps
everything after the category; any other category raises `ValueError`.
The boolean is true for instrument sources. -/
def parseSourceId (raw : String) : Except String (Bool × String) :=
  let p := partitionChar '/' raw.toList
  if String.mk p.1 = "INSTRUMENT" then
    let q := partitionChar ':' p.2
    let r := partitionChar '/' q.2
    .ok (true, String.mk (q.1 ++ ':' :: r.1))
  else if String.mk p.1 = "CONTROL" then .ok (false, String.mk p.2)
  else .error ("ValueError: Unknown data category " ++ String.mk p.1)

/-- Register one segment for a source: create the (empty) registry entry when
the source is new, then append the segment to its list. -/
def mappingAppendSeg : List (String × List Segment) → String → Segment →
    List (String × List Segment)
  | [], s, seg => [(s, [seg])]
  | (k, v) :: rest, s, seg =>
      if s = k then (k, v ++ [seg]) :: rest else (k, v) :: mappingAppendSeg rest s seg

/-- `DataCollection.add_file`: drop zero entries from the train-ID dataset,
parse and categorise the declared source identifiers (skipping empty ones),
register the file train-ID array as a segment of every discovered source, and
recompute `train_ids` as the sorted de-duplicated union with the previous list.
A Python `add_file` that raises on an unknown category leaves the receiver
partially mutated; the embedding models only successful calls, which is all the
claims quantify over. -/
def addFile (dc : DataCollection) (f : H5File) : Except String DataCollection :=
  let train_ids := f.indexTrainIds.filter (· ≠ 0)
  match (f.dataSourceIds.filter (· ≠ "")).mapM parseSourceId with
  | .error e => .error e
  | .ok parsed =>
      let instr := (parsed.filter (·.1)).map (·.2)
      let ctrl := (parsed.filter (fun p => !p.1)).map (·.2)
      let srcs : Finset String := instr.toFinset ∪ ctrl.toFinset
      .ok { dc with
        instrument_sources := dc.instrument_sources ∪ instr.toFinset,
        control_sources := dc.control_sources ∪ ctrl.toFinset,
        source_file_mapping :=
          (sortedSources srcs).foldl
            (fun m s => mappingAppendSeg m s (train_ids, f)) dc.source_file_mapping,
        train_ids := sortedSet (dc.train_ids ++ train_ids) }

/-! ### `select_trains` -/

/-- The dict comprehension on `self._source_keys` in `select_trains` iterates
the dict directly, so it sees the key strings and unpacks each of them into the
pair `(s, k)`.  That unpacking succeeds only for a two-character source name
(giving two one-character strings) and raises `ValueError` otherwise.  A
surviving entry maps the first character to the second character; the
one-character string value, which stands where a key set belongs, is modelled
as a singleton key set. -/
def unpackKeyEntries (keep : String → Bool) :
    List (String × Finset String) → Except String (List (String × Finset String))
  | [] => .ok []
  | (t, _) :: rest =>
      match t.toList with
      | [a, b] =>
          match unpackKeyEntries keep rest with
          | .error e => .error e
          | .ok tail =>
              if keep (String.mk [a]) then .ok ((String.mk [a], {String.mk [b]}) :: tail)
              else .ok tail
      | cs =>
          if cs.length < 2 then .error "ValueError: not enough values to unpack (expected 2)"
          else .error "ValueError: too many values to unpack (expected 2)"

/-- The slice-resolution prologue of `select_trains`: a by-ID range has its two
endpoints converted to positions by `_tid_to_slice_ix` (start first), a
positional range passes through unchanged. -/
def resolveRange (dc : DataCollection) (tr : TrainRange) :
    Except String (Option Int × Option Int × Option Int) :=
  match tr with
  | .by_id start stop step =>
      match tidToSliceIx start dc.train_ids false with
      | .error e => .error e
      | .ok si =>
          match tidToSliceIx stop dc.train_ids true with
          | .error e => .error e
          | .ok pi => .ok (si.map Int.ofNat, pi.map Int.ofNat, step)
  | .by_index a b c => .ok (a, b, c)

/-- The registry surviving a train-range restriction: per source, the segments
whose train-ID array intersects the new train-ID list
(`np.intersect1d(train_ids, res.train_ids).size > 0`); a source keeping no
segment gets no registry entry at all. -/
def keptRegistry (m : List (String × List Segment)) (newTids : List Nat) :
    List (String × List Segment) :=
  m.filterMap (fun sv =>
    if (sv.2.filter (fun seg => seg.1.any (fun t => t ∈ newTids))).isEmpty then none
    else some (sv.1, sv.2.filter (fun seg => seg.1.any (fun t => t ∈ newTids))))

/-- `DataCollection.select_trains`: resolve a by-ID range through
`_tid_to_slice_ix` or take a positional slice as is, slice `train_ids`, keep
exactly the registry segments whose train-ID array intersects the new list
(sources left with no segment disappear from the registry, the source sets,
the key map and the index cache), and build the new collection. -/
def selectTrains (dc : DataCollection) (tr : TrainRange) : Except String DataCollection :=
  match resolveRange dc tr with
  | .error e => .error e
  | .ok abc =>
      match pySlice abc.1 abc.2.1 abc.2.2 dc.train_ids with
      | none => .error "ValueError: slice step cannot be zero"
      | some newTids =>
          match unpackKeyEntries
              (fun s => (alookup (keptRegistry dc.source_file_mapping newTids) s).isSome)
              dc.source_keys with
          | .error e => .error e
          | .ok sks =>
              .ok { instrument_sources :=
                      dc.instrument_sources.filter (fun s =>
                        (alookup (keptRegistry dc.source_file_mapping newTids) s).isSome),
                    control_sources :=
                      dc.control_sources.filter (fun s =>
                        (alookup (keptRegistry dc.source_file_mapping newTids) s).isSome),
                    train_ids := newTids,
                    source_file_mapping := keptRegistry dc.source_file_mapping newTids,
                    index_cache := dc.index_cache.filter (fun e =>
                      (alookup (keptRegistry dc.source_file_mapping newTids) e.1.2.1).isSome),
                    source_keys := sks }

/-! ### The selection engine -/

/-- The three selector shapes `_expand_selection` recognises, plus `other` for
a value of any unrecognised type (such as an integer): for those the method
builds a `TypeError` without raising it and falls through to return the
accumulated (empty) set. -/
inductive Selector : Type
  | set (pairs : Finset (String × String))
  | dict (entries : List (String × Finset String))
  | globList (pairs : List (String × String))
  | other

/-- The first positional argument of `select`: either a source glob string
with a key glob, or one of the selector shapes. -/
inductive SelectArg : Type
  | glob (sg kg : String)
  | sel (s : Selector)

/-- Key-glob matching for a control source when the glob does not end in
`.value` or `*`: `_select_glob` inserts the optional group `(\.value)?` in
front of the anchor of the translated pattern, so the key matches exactly when
the plain anchored pattern matches it or the pattern followed by the literal
`.value` does. -/
def ctrlKeyMatch (kg key : String) : Bool :=
  globMatch kg key || globMatch (kg ++ ".value") key

/-- Whether the key glob is used verbatim for control sources
(`key_glob.endswith(('.value', '*'))`). -/
def keyGlobVerbatim (kg : String) : Bool :=
  endsWithStr kg ".value" || endsWithStr kg "*"

/-- The pattern applied to one key of one source: the control pattern for a
control source when the key glob is not used verbatim, the plain pattern
otherwise (`r = ctrl_key_re if source in self.control_sources else key_re`). -/
def keyMatchesFor (ctrl : Finset String) (source kg key : String) : Bool :=
  if source ∈ ctrl && !keyGlobVerbatim kg then ctrlKeyMatch kg key else globMatch kg key

/-- The `(source, key)` pairs one matched source contributes for a non-star
key glob: its keys filtered through the pattern above. -/
def matchedKeys (dc : DataCollection) (source kg : String) (ks : Finset String) :
    Finset (String × String) :=
  (ks.filter (fun k => keyMatchesFor dc.control_sources source kg k = true)).image
    (fun k => (source, k))

/-- The source loop of `_select_glob`, threading the receiver because
`_keys_for_source` caches keys it reads from files. -/
def selectGlobAux (sg kg : String) :
    List String → DataCollection → Finset (String × String) →
    Except String (Finset (String × String)) × DataCollection
  | [], dc, acc => (.ok acc, dc)
  | s :: rest, dc, acc =>
      if globMatch sg s then
        if kg = "*" then selectGlobAux sg kg rest dc (insert (s, "*") acc)
        else
          match keysForSource dc s with
          | (.error e, dc2) => (.error e, dc2)
          | (.ok ks, dc2) => selectGlobAux sg kg rest dc2 (acc ∪ matchedKeys dc2 s kg ks)
      else selectGlobAux sg kg rest dc acc

/-- `DataCollection._select_glob`: run the source loop over all sources and
raise `ValueError` when nothing matched. -/
def selectGlob (dc : DataCollection) (sg kg : String) :
    Except String (Finset (String × String)) × DataCollection :=
  match selectGlobAux sg kg (sortedSources dc.all_sources) dc ∅ with
  | (.error e, dc2) => (.error e, dc2)
  | (.ok matched, dc2) =>
      if matched = ∅ then
        (.error ("ValueError: No matches for pattern " ++ sg ++ " " ++ kg), dc2)
      else (.ok matched, dc2)

/-- The dict branch of `_expand_selection`: every named source must exist, and
an empty key set means the wildcard key. -/
def expandDictEntries (dc : DataCollection) :
    List (String × Finset String) → Except String (Finset (String × String))
  | [] => .ok ∅
  | (source, keys) :: rest =>
      if source ∈ dc.all_sources then
        match expandDictEntries dc rest with
        | .error e => .error e
        | .ok acc =>
            .ok (acc ∪ (if keys = ∅ then {"*"} else keys).image (fun k => (source, k)))
      else .error ("ValueError: Source " ++ source ++ " not in this run")

/-- The list branch of `_expand_selection`: expand each glob pair and union
the matches (the `if not matched` re-check in the caller is preserved although
`_select_glob` has already raised for an empty match). -/
def expandGlobPairs :
    DataCollection → List (String × String) → Finset (String × String) →
    Except String (Finset (String × String)) × DataCollection
  | dc, [], acc => (.ok acc, dc)
  | dc, (sg, kg) :: rest, acc =>
      match selectGlob dc sg kg with
      | (.error e, dc2) => (.error e, dc2)
      | (.ok matched, dc2) =>
          if matched = ∅ then
            (.error ("ValueError: No matches for pattern " ++ sg ++ " " ++ kg), dc2)
          else expandGlobPairs dc2 rest (acc ∪ matched)

/-- `DataCollection._expand_selection`: a set passes through, a dict and a
glob list are expanded, and any other value falls through to return the empty
accumulated set because the `TypeError` on the unknown-type branch is built but
never raised. -/
def expandSelection (dc : DataCollection) :
    Selector → Except String (Finset (String × String)) × DataCollection
  | .set pairs => (.ok pairs, dc)
  | .dict entries =>
      match expandDictEntries dc entries with
      | .error e => (.error e, dc)
      | .ok res => (.ok res, dc)
  | .globList pairs => expandGlobPairs dc pairs ∅
  | .other => (.ok ∅, dc)

/-- The registry of a selection result:
`{s: self._source_file_mapping[s] for s in selected_sources}` (a `KeyError`
escapes if a selected source is not registered). -/
def mappingForSel (dc : DataCollection) :
    List String → Except String (List (String × List Segment))
  | [] => .ok []
  | s :: rest =>
      match alookup dc.source_file_mapping s with
      | none => .error ("KeyError: " ++ s)
      | some segs =>
          match mappingForSel dc rest with
          | .error e => .error e
          | .ok m => .ok ((s, segs) :: m)

/-- The key-restriction map of a selection result: group the selected keys by
source; a source whose key set contains the wildcard inherits the existing
restriction entry of the receiver when there is one and gets no entry
otherwise. -/
def selectedKeysFor (dc : DataCollection) (selection : Finset (String × String)) :
    List (String × Finset String) :=
  (sortedSources (selection.image Prod.fst)).filterMap (fun s =>
    let keys := (selection.filter (fun p => p.1 = s)).image Prod.snd
    if "*" ∈ keys then
      match alookup dc.source_keys s with
      | some ks => some (s, ks)
      | none => none
    else some (s, keys))

/-- `DataCollection.select`: normalise the argument to a set of
`(source, key)` pairs (a string argument goes through `_select_glob`, anything
else through `_expand_selection`, and the result is passed through
`_expand_selection` once more), then build the new collection: sources
intersected with the selection, registry and index cache filtered to selected
sources, `train_ids` recomputed from the filtered registry, and the per-source
key restriction derived from the selection.  Returns the result together with
the receiver as left behind by the key-cache writes. -/
def select (dc : DataCollection) (arg : SelectArg) :
    Except String DataCollection × DataCollection :=
  match (match arg with
    | .glob sg kg => selectGlob dc sg kg
    | .sel s => expandSelection dc s) with
  | (.error e, dc1) => (.error e, dc1)
  | (.ok sel0, dc1) =>
      match expandSelection dc1 (.set sel0) with
      | (.error e, dc2) => (.error e, dc2)
      | (.ok selection, dc2) =>
          let selected := selection.image Prod.fst
          match mappingForSel dc2 (sortedSources selected) with
          | .error e => (.error e, dc2)
          | .ok sfm =>
              (.ok { instrument_sources := dc2.instrument_sources ∩ selected,
                     control_sources := dc2.control_sources ∩ selected,
                     source_file_mapping := sfm,
                     index_cache := dc2.index_cache.filter (fun e => e.1.2.1 ∈ selected),
                     train_ids :=
                       sortedSet ((sfm.map (fun sv => (sv.2.map Prod.fst).flatten)).flatten),
                     source_keys := selectedKeysFor dc2 selection }, dc2)

/-! ### `get_array` -/

/-- An `xarray.DataArray` as the reader builds it: rows labelled by train IDs
(the anonymous trailing dimension names carry no information and are not
modelled).  Rows are opaque. -/
structure XArray where
  coords : List Nat
  data : List Nat
deriving DecidableEq

/-- `xarray.DataArray(data, dims, coords={'trainId': tids})` insists that the
data row count equals the coordinate length and raises otherwise. -/
def mkXArray (data coords : List Nat) : Except String XArray :=
  if data.length = coords.length then .ok ⟨coords, data⟩
  else .error "ValueError: conflicting sizes in DataArray construction"

/-- The first train-ID coordinate of a per-segment array, the sort key of the
final concatenation. -/
def firstCoord (a : XArray) : Nat := a.coords.headD 0

/-- `xarray.concat(..., dim='trainId')` of per-segment arrays. -/
def concatXArrays (l : List XArray) : XArray :=
  ⟨(l.map XArray.coords).flatten, (l.map XArray.data).flatten⟩

/-- The control-source segment loop of `get_array`: read the leading
`len(trainids)` rows of the dataset and label them with the segment train IDs. -/
def getArraySegsCtrl (path : String) : List Segment → Except String (List XArray)
  | [] => .ok []
  | (tids, f) :: rest =>
      match lookupDataset f path with
      | .error e => .error e
      | .ok rows =>
          match mkXArray (rows.take tids.length) tids with
          | .error e => .error e
          | .ok a =>
              match getArraySegsCtrl path rest with
              | .error e => .error e
              | .ok tail => .ok (a :: tail)

/-- The instrument-source segment loop of `get_array`: fetch the group index,
raise when any train has more than one data point, expand the train IDs by the
counts and read that many leading rows. -/
def getArraySegsInst (dc : DataCollection) (source key path : String) :
    List Segment → Except String (List XArray)
  | [] => .ok []
  | (tids, f) :: rest =>
      match getIndexPure dc f source (keyGroup key) with
      | .error e => .error e
      | .ok fc =>
          if fc.2.any (· > 1) then
            .error (source ++ "/" ++ keyGroup key
              ++ " data has more than one data point per train")
          else
            match expandTrainids fc.1 fc.2 tids with
            | .error e => .error e
            | .ok etids =>
                match lookupDataset f path with
                | .error e => .error e
                | .ok rows =>
                    match mkXArray (rows.take etids.length) etids with
                    | .error e => .error e
                    | .ok a =>
                        match getArraySegsInst dc source key path rest with
                        | .error e => .error e
                        | .ok tail => .ok (a :: tail)

/-- The tail of `get_array`: drop empty per-segment arrays; if none remain,
return the first per-segment array when there was one and raise the
unexpected-state error when the segment loop produced nothing at all;
otherwise concatenate the non-empty arrays sorted by first train ID. -/
def finishArrays (source key : String) (arrs : List XArray) : Except String XArray :=
  match arrs.filter (fun a => !a.data.isEmpty), arrs with
  | [], a :: _ => .ok a
  | [], [] =>
      .error ("Exception: Unable to get data for source " ++ source ++ ", key " ++ key
        ++ ". Please report an issue so we can investigate")
  | ne, _ => .ok (concatXArrays (sortListBy (fun a b => firstCoord a ≤ firstCoord b) ne))

/-- `DataCollection.get_array`. -/
def getArray (dc : DataCollection) (source key : String) : Except String XArray :=
  match checkField dc source key with
  | .error e => .error e
  | .ok _ =>
      if source ∈ dc.control_sources then
        match alookup dc.source_file_mapping source with
        | none => .error ("KeyError: " ++ source)
        | some segs =>
            match getArraySegsCtrl ("/CONTROL/" ++ source ++ "/" ++ keySlashed key) segs with
            | .error e => .error e
            | .ok arrs => finishArrays source key arrs
      else if source ∈ dc.instrument_sources then
        match alookup dc.source_file_mapping source with
        | none => .error ("KeyError: " ++ source)
        | some segs =>
            match getArraySegsInst dc source key
                ("/INSTRUMENT/" ++ source ++ "/" ++ keySlashed key) segs with
            | .error e => .error e
            | .ok arrs => finishArrays source key arrs
      else .error ("SourceNameError: " ++ source)

/-! ### `get_series` -/

/-- The `TrainIterator._datasets_cache`: per (source, key), the train-ID array
and file of the last segment used (the dataset object itself is recovered from
the file on use; it was read successfully when the entry was stored). -/
abbrev DsCache : Type := List ((String × String) × (List Nat × H5File))

/-- A value delivered for one key of one train: a single row when the index
count is one, a block of rows otherwise. -/
inductive TrainValue : Type
  | one (row : Nat)
  | many (rows : List Nat)
deriving DecidableEq

/-- The per-source mapping key to value assembled for one train. -/
abbrev SourceData : Type := List (String × TrainValue)

/-- The mapping source to per-source data assembled for one train. -/
abbrev TrainData : Type := List (String × SourceData)

/-- Registered explicitly: the nested list/product equality instance for
iterator results grows past the default instance-search size. -/
instance : DecidableEq (List (Nat × TrainData)) := instDecidableEqList

/-- The fresh-scan loop of `TrainIterator._find_data`: the first segment whose
train-ID array contains the train provides the file, position and dataset
(looking the dataset up raises `KeyError` when the path is absent). -/
def iterScanSegs (path : String) (tid : Nat) :
    List Segment → Except String (Option ((List Nat × H5File) × Nat))
  | [] => .ok none
  | (tids, f) :: rest =>
      match listIndexOf tids tid with
      | some ix =>
          match alookup f.datasets path with
          | none => .error ("KeyError: " ++ path)
          | some _ => .ok (some ((tids, f), ix))
      | none => iterScanSegs path tid rest

/-- `TrainIterator._find_data`: use the cached segment for this (source, key)
when it contains the train, otherwise scan the segments of the source afresh
and remember the segment that matched. -/
def iterFindData (dc : DataCollection) (cache : DsCache) (source key : String) (tid : Nat) :
    Except String (Option (H5File × Nat) × DsCache) :=
  let path := "/" ++ (if source ∈ dc.control_sources then "CONTROL" else "INSTRUMENT")
    ++ "/" ++ source ++ "/" ++ keySlashed key
  let scan : Except String (Option (H5File × Nat) × DsCache) :=
    match alookup dc.source_file_mapping source with
    | none => .error ("KeyError: " ++ source)
    | some segs =>
        match iterScanSegs path tid segs with
        | .error e => .error e
        | .ok none => .ok (none, cache)
        | .ok (some (seg, ix)) =>
            .ok (some (seg.2, ix), aupsert cache (source, key) (seg.1, seg.2))
  match alookup cache (source, key) with
  | some cf =>
      match listIndexOf cf.1 tid with
      | some ix => .ok (some (cf.2, ix), cache)
      | none => scan
  | none => scan

/-- The control-source key loop of `_assemble_data`: a key with no resolvable
segment contributes no entry; otherwise the single row at the position. -/
def assembleCtrlKeys (dc : DataCollection) (source : String) (tid : Nat) :
    List String → DsCache → Except String (SourceData × DsCache)
  | [], cache => .ok ([], cache)
  | key :: rest, cache =>
      match iterFindData dc cache source key tid with
      | .error e => .error e
      | .ok (none, cache2) => assembleCtrlKeys dc source tid rest cache2
      | .ok (some (f, pos), cache2) =>
          match alookup f.datasets ("/CONTROL/" ++ source ++ "/" ++ keySlashed key) with
          | none => .error ("KeyError: /CONTROL/" ++ source ++ "/" ++ keySlashed key)
          | some rows =>
              match rows.get? pos with
              | none => .error "IndexError: dataset row out of range"
              | some v =>
                  match assembleCtrlKeys dc source tid rest cache2 with
                  | .error e => .error e
                  | .ok (tail, cache3) => .ok ((key, .one v) :: tail, cache3)

/-- The instrument-source key loop of `_assemble_data`: resolve the position,
fetch `(first, count)` from the group index, and deliver one row for a count
of one and the contiguous block otherwise. -/
def assembleInstKeys (dc : DataCollection) (source : String) (tid : Nat) :
    List String → DsCache → Except String (SourceData × DsCache)
  | [], cache => .ok ([], cache)
  | key :: rest, cache =>
      match iterFindData dc cache source key tid with
      | .error e => .error e
      | .ok (none, cache2) => assembleInstKeys dc source tid rest cache2
      | .ok (some (f, pos), cache2) =>
          match getIndexPure dc f source (keyGroup key) with
          | .error e => .error e
          | .ok fc =>
              match fc.1.get? pos, fc.2.get? pos with
              | some first, some count =>
                  match alookup f.datasets
                      ("/INSTRUMENT/" ++ source ++ "/" ++ keySlashed key) with
                  | none => .error ("KeyError: /INSTRUMENT/" ++ source ++ "/" ++ keySlashed key)
                  | some rows =>
                      if count = 1 then
                        match rows.get? first with
                        | none => .error "IndexError: dataset row out of range"
                        | some v =>
                            match assembleInstKeys dc source tid rest cache2 with
                            | .error e => .error e
                            | .ok (tail, cache3) => .ok ((key, .one v) :: tail, cache3)
                      else
                        match assembleInstKeys dc source tid rest cache2 with
                        | .error e => .error e
                        | .ok (tail, cache3) =>
                            .ok ((key, .many ((rows.drop first).take count)) :: tail, cache3)
              | _, _ => .error "IndexError: index position out of range"

/-- One of the two source loops of `_assemble_data`; `res[source]` assignment
is an upsert so that a source present in both category sets ends up with the
value of the later (instrument) loop, as in Python. -/
def assembleLoop (dc : DataCollection) (tid : Nat) (isCtrl : Bool) :
    List String → DsCache → TrainData → Except String (TrainData × DsCache)
  | [], cache, res => .ok (res, cache)
  | source :: rest, cache, res =>
      match keysForSourcePure dc source with
      | .error e => .error e
      | .ok ks =>
          match (if isCtrl then assembleCtrlKeys dc source tid (sortedSources ks) cache
                 else assembleInstKeys dc source tid (sortedSources ks) cache) with
          | .error e => .error e
          | .ok (sd, cache2) =>
              assembleLoop dc tid isCtrl rest cache2 (aupsert res source sd)

/-- `TrainIterator._assemble_data`: control sources first, instrument sources
second. -/
def assembleData (dc : DataCollection) (tid : Nat) (cache : DsCache) :
    Except String (TrainData × DsCache) :=
  match assembleLoop dc tid true (sortedSources dc.control_sources) cache [] with
  | .error e => .error e
  | .ok (res, cache2) =>
      assembleLoop dc tid false (sortedSources dc.instrument_sources) cache2 res

/-- The groups of an instrument source examined by `_check_data_missing`: the
leading dotted components of its keys. -/
def groupsOf (ks : Finset String) : List String :=
  sortedSources (ks.image keyGroup)

/-- The group loop of `_check_data_missing`: any group whose count at the
position is zero makes the train incomplete. -/
def checkMissingGroups (dc : DataCollection) (f : H5File) (source : String) (pos : Nat) :
    List String → Except String Bool
  | [] => .ok false
  | grp :: rest =>
      match getIndexPure dc f source grp with
      | .error e => .error e
      | .ok fc =>
          match fc.2.get? pos with
          | none => .error "IndexError: index position out of range"
          | some c =>
              if c = 0 then .ok true else checkMissingGroups dc f source pos rest

/-- The control loop of `_check_data_missing`: a control source with no
segment containing the train makes it incomplete. -/
def checkMissingCtrl (dc : DataCollection) (tid : Nat) :
    List String → Except String Bool
  | [] => .ok false
  | s :: rest =>
      match findDataDC dc s tid with
      | .error e => .error e
      | .ok none => .ok true
      | .ok (some _) => checkMissingCtrl dc tid rest

/-- The instrument loop of `_check_data_missing`: an instrument source with no
segment containing the train, or with a zero count in some group at its
position, makes it incomplete. -/
def checkMissingInst (dc : DataCollection) (tid : Nat) :
    List String → Except String Bool
  | [] => .ok false
  | s :: rest =>
      match findDataDC dc s tid with
      | .error e => .error e
      | .ok none => .ok true
      | .ok (some fpos) =>
          match keysForSourcePure dc s with
          | .error e => .error e
          | .ok ks =>
              match checkMissingGroups dc fpos.1 s fpos.2 (groupsOf ks) with
              | .error e => .error e
              | .ok true => .ok true
              | .ok false => checkMissingInst dc tid rest

/-- `DataCollection._check_data_missing`. -/
def checkDataMissing (dc : DataCollection) (tid : Nat) : Except String Bool :=
  match checkMissingCtrl dc tid (sortedSources dc.control_sources) with
  | .error e => .error e
  | .ok true => .ok true
  | .ok false => checkMissingInst dc tid (sortedSources dc.instrument_sources)

/-- `TrainIterator.__iter__` over a train-ID list: skip a train in
require-all mode when `_check_data_missing` holds, otherwise yield the train
with its assembled data, threading the datasets cache. -/
def iterTrainsAux (dc : DataCollection) (requireAll : Bool) :
    List Nat → DsCache → Except String (List (Nat × TrainData))
  | [], _ => .ok []
  | tid :: rest, cache =>
      if requireAll then
        match checkDataMissing dc tid with
        | .error e => .error e
        | .ok true => iterTrainsAux dc requireAll rest cache
        | .ok false =>
            match assembleData dc tid cache with
            | .error e => .error e
            | .ok (res, cache2) =>
                match iterTrainsAux dc requireAll rest cache2 with
                | .error e => .error e
                | .ok tail => .ok ((tid, res) :: tail)
      else
        match assembleData dc tid cache with
        | .error e => .error e
        | .ok (res, cache2) =>
            match iterTrainsAux dc requireAll rest cache2 with
            | .error e => .error e
            | .ok tail => .ok ((tid, res) :: tail)

/-- Full iteration of a `TrainIterator` built on a collection (the datasets
cache starts empty). -/
def iterTrains (dc : DataCollection) (requireAll : Bool) :
    Except String (List (Nat × TrainData)) :=
  iterTrainsAux dc requireAll dc.train_ids []


/-! ### C6: train iteration, skipping and incomplete trains -/

theorem alookup_mem {α β : Type} [DecidableEq α] :
    ∀ (l : List (α × β)) (a : α) (b : β), alookup l a = some b → (a, b) ∈ l := by
  intro l
  induction l with
  | nil => intro a b h; cases h
  | cons kv rest ih =>
      intro a b h
      obtain ⟨k, v⟩ := kv
      simp only [alookup] at h
      by_cases hak : a = k
      · rw [if_pos hak] at h
        obtain rfl := Option.some.inj h
        rw [hak]
        exact List.mem_cons_self _ _
      · rw [if_neg hak] at h
        exact List.mem_cons_of_mem _ (ih a b h)

theorem mem_aupsert {α β : Type} [DecidableEq α] :
    ∀ (l : List (α × β)) (k : α) (v : β) (e : α × β),
      e ∈ aupsert l k v → e ∈ l ∨ e = (k, v) := by
  intro l
  induction l with
  | nil =>
      intro k v e h
      simp only [aupsert] at h
      exact Or.inr (List.mem_singleton.mp h)
  | cons kv rest ih =>
      intro k v e h
      obtain ⟨k2, v2⟩ := kv
      simp only [aupsert] at h
      by_cases hk : k = k2
      · rw [if_pos hk] at h
        rcases List.mem_cons.mp h with rfl | h2
        · exact Or.inr (by rw [hk])
        · exact Or.inl (List.mem_cons_of_mem _ h2)
      · rw [if_neg hk] at h
        rcases List.mem_cons.mp h with rfl | h2
        · exact Or.inl (List.mem_cons_self _ _)
        · rcases ih k v e h2 with h3 | h3
          · exact Or.inl (List.mem_cons_of_mem _ h3)
          · exact Or.inr h3

theorem alookup_aupsert_ne {α β : Type} [DecidableEq α] :
    ∀ (l : List (α × β)) (k a : α) (v : β), a ≠ k →
      alookup (aupsert l k v) a = alookup l a := by
  intro l
  induction l with
  | nil =>
      intro k a v hne
      simp only [aupsert, alookup, if_neg hne]
  | cons kv rest ih =>
      intro k a v hne
      obtain ⟨k2, v2⟩ := kv
      simp only [aupsert]
      by_cases hk : k = k2
      · rw [if_pos hk]
        simp only [alookup]
        rw [if_neg (by rw [hk] at hne; exact hne), if_neg (by rw [hk] at hne; exact hne)]
      · rw [if_neg hk]
        simp only [alookup]
        by_cases hak : a = k2
        · rw [if_pos hak, if_pos hak]
        · rw [if_neg hak, if_neg hak]
          exact ih k a v hne

theorem alookup_aupsert_self {α β : Type} [DecidableEq α] :
    ∀ (l : List (α × β)) (k : α) (v : β), alookup (aupsert l k v) k = some v := by
  intro l
  induction l with
  | nil => intro k v; simp [aupsert, alookup]
  | cons kv rest ih =>
      intro k v
      obtain ⟨k2, v2⟩ := kv
      simp only [aupsert]
      by_cases hk : k = k2
      · rw [if_pos hk]
        simp only [alookup]
        rw [if_pos hk]
      · rw [if_neg hk]
        simp only [alookup]
        rw [if_neg hk]
        exact ih k v

theorem findDataSegs_none : ∀ (segs : List Segment) (tid : Nat),
    findDataSegs segs tid = none → ∀ sg ∈ segs, listIndexOf sg.1 tid = none := by
  intro segs
  induction segs with
  | nil => intro tid _ sg hsg; cases hsg
  | cons sg2 rest ih =>
      intro tid h sg hsg
      obtain ⟨tids, f⟩ := sg2
      simp only [findDataSegs] at h
      cases hix : listIndexOf tids tid with
      | some ix => rw [hix] at h; cases h
      | none =>
          rw [hix] at h
          rcases List.mem_cons.mp hsg with rfl | hsg2
          · exact hix
          · exact ih tid h sg hsg2

theorem iterScanSegs_none (path : String) (tid : Nat) :
    ∀ (segs : List Segment), (∀ sg ∈ segs, listIndexOf sg.1 tid = none) →
      iterScanSegs path tid segs = .ok none := by
  intro segs
  induction segs with
  | nil => intro _; rfl
  | cons sg rest ih =>
      intro hall
      obtain ⟨tids, f⟩ := sg
      have hhd := hall (tids, f) (List.mem_cons_self _ _)
      simp only [iterScanSegs, hhd]
      exact ih (fun sg2 h2 => hall sg2 (List.mem_cons_of_mem _ h2))

theorem iterScanSegs_mem (path : String) (tid : Nat) :
    ∀ (segs : List Segment) (seg : List Nat × H5File) (ix : Nat),
      iterScanSegs path tid segs = .ok (some (seg, ix)) → seg ∈ segs := by
  intro segs
  induction segs with
  | nil => intro seg ix h; cases h
  | cons sg rest ih =>
      intro seg ix h
      obtain ⟨tids, f⟩ := sg
      simp only [iterScanSegs] at h
      cases hix : listIndexOf tids tid with
      | some i =>
          rw [hix] at h
          cases hds : alookup f.datasets path with
          | none => rw [hds] at h; cases h
          | some d =>
              rw [hds] at h
              obtain h2 := Except.ok.inj h
              obtain h3 := (Option.some.inj h2)
              rw [Prod.mk.injEq] at h3
              rw [← h3.1]
              exact List.mem_cons_self _ _
      | none =>
          rw [hix] at h
          exact List.mem_cons_of_mem _ (ih seg ix h)

/-- Well-formedness of the iterator's datasets cache: every entry holds a
registry segment of its source. -/
def CacheWF (dc : DataCollection) (cache : DsCache) : Prop :=
  ∀ e ∈ cache, ∃ segs, alookup dc.source_file_mapping e.1.1 = some segs ∧ e.2 ∈ segs

theorem cacheWF_nil (dc : DataCollection) : CacheWF dc [] :=
  fun e he => absurd he (List.not_mem_nil e)

theorem iterFindData_absent (dc : DataCollection) (cache : DsCache)
    (s k : String) (tid : Nat) (segs : List Segment)
    (hwf : CacheWF dc cache)
    (hsegs : alookup dc.source_file_mapping s = some segs)
    (hnone : findDataSegs segs tid = none) :
    iterFindData dc cache s k tid = .ok (none, cache) := by
  have hscan := findDataSegs_none segs tid hnone
  have hscanEq := iterScanSegs_none
    ("/" ++ (if s ∈ dc.control_sources then "CONTROL" else "INSTRUMENT")
      ++ "/" ++ s ++ "/" ++ keySlashed k) tid segs hscan
  simp only [iterFindData, hsegs, hscanEq]
  cases hch : alookup cache (s, k) with
  | none => rfl
  | some cf =>
      obtain ⟨segs2, hs2, hmem⟩ := hwf ((s, k), cf) (alookup_mem cache (s, k) cf hch)
      have hs2b : alookup dc.source_file_mapping s = some segs2 := hs2
      obtain rfl := Option.some.inj (hsegs.symm.trans hs2b)
      have hmem2 : cf ∈ segs := hmem
      have hidx := hscan cf hmem2
      simp only [hidx]

theorem iterFindData_wf (dc : DataCollection) (cache : DsCache) (s k : String)
    (tid : Nat) (r : Option (H5File × Nat)) (cache2 : DsCache)
    (h : iterFindData dc cache s k tid = .ok (r, cache2))
    (hwf : CacheWF dc cache) : CacheWF dc cache2 := by
  simp only [iterFindData] at h
  cases hch : alookup cache (s, k) with
  | some cf =>
      simp only [hch] at h
      cases hix : listIndexOf cf.1 tid with
      | some ix =>
          simp only [hix] at h
          obtain h2 := Except.ok.inj h
          rw [Prod.mk.injEq] at h2
          rw [← h2.2]
          exact hwf
      | none =>
          simp only [hix] at h
          cases hsm : alookup dc.source_file_mapping s with
          | none => rw [hsm] at h; cases h
          | some segs =>
              simp only [hsm] at h
              cases hsc : iterScanSegs ("/" ++ (if s ∈ dc.control_sources then "CONTROL"
                  else "INSTRUMENT") ++ "/" ++ s ++ "/" ++ keySlashed k) tid segs with
              | error e => rw [hsc] at h; cases h
              | ok o =>
                  cases o with
                  | none =>
                      simp only [hsc] at h
                      obtain h2 := Except.ok.inj h
                      rw [Prod.mk.injEq] at h2
                      rw [← h2.2]
                      exact hwf
                  | some segix =>
                      obtain ⟨seg, ix⟩ := segix
                      simp only [hsc] at h
                      obtain h2 := Except.ok.inj h
                      rw [Prod.mk.injEq] at h2
                      rw [← h2.2]
                      intro e he
                      rcases mem_aupsert cache (s, k) (seg.1, seg.2) e he with h3 | h3
                      · exact hwf e h3
                      · rw [h3]
                        exact ⟨segs, hsm, iterScanSegs_mem _ tid segs seg ix hsc⟩
  | none =>
      simp only [hch] at h
      cases hsm : alookup dc.source_file_mapping s with
      | none => rw [hsm] at h; cases h
      | some segs =>
          simp only [hsm] at h
          cases hsc : iterScanSegs ("/" ++ (if s ∈ dc.control_sources then "CONTROL"
              else "INSTRUMENT") ++ "/" ++ s ++ "/" ++ keySlashed k) tid segs with
          | error e => rw [hsc] at h; cases h
          | ok o =>
              cases o with
              | none =>
                  simp only [hsc] at h
                  obtain h2 := Except.ok.inj h
                  rw [Prod.mk.injEq] at h2
                  rw [← h2.2]
                  exact hwf
              | some segix =>
                  obtain ⟨seg, ix⟩ := segix
                  simp only [hsc] at h
                  obtain h2 := Except.ok.inj h
                  rw [Prod.mk.injEq] at h2
                  rw [← h2.2]
                  intro e he
                  rcases mem_aupsert cache (s, k) (seg.1, seg.2) e he with h3 | h3
                  · exact hwf e h3
                  · rw [h3]
                    exact ⟨segs, hsm, iterScanSegs_mem _ tid segs seg ix hsc⟩

theorem assembleCtrlKeys_wf (dc : DataCollection) (source : String) (tid : Nat) :
    ∀ (keys : List String) (cache : DsCache) (sd : SourceData) (cache2 : DsCache),
      assembleCtrlKeys dc source tid keys cache = .ok (sd, cache2) →
      CacheWF dc cache → CacheWF dc cache2 := by
  intro keys
  induction keys with
  | nil =>
      intro cache sd cache2 h hwf
      simp only [assembleCtrlKeys] at h
      obtain h2 := Except.ok.inj h
      rw [Prod.mk.injEq] at h2
      rw [← h2.2]
      exact hwf
  | cons key rest ih =>
      intro cache sd cache2 h hwf
      simp only [assembleCtrlKeys] at h
      cases hfd : iterFindData dc cache source key tid with
      | error e => rw [hfd] at h; cases h
      | ok rc =>
          obtain ⟨r, cache1⟩ := rc
          have hwf1 := iterFindData_wf dc cache source key tid r cache1 hfd hwf
          cases r with
          | none =>
              simp only [hfd] at h
              exact ih cache1 sd cache2 h hwf1
          | some fp =>
              obtain ⟨f, pos⟩ := fp
              simp only [hfd] at h
              cases hds : alookup f.datasets ("/CONTROL/" ++ source ++ "/" ++ keySlashed key) with
              | none => rw [hds] at h; cases h
              | some rows =>
                  simp only [hds] at h
                  cases hrow : rows.get? pos with
                  | none => rw [hrow] at h; cases h
                  | some v =>
                      simp only [hrow] at h
                      cases hrec : assembleCtrlKeys dc source tid rest cache1 with
                      | error e => rw [hrec] at h; cases h
                      | ok tc =>
                          obtain ⟨tail, cache3⟩ := tc
                          simp only [hrec] at h
                          obtain h2 := Except.ok.inj h
                          rw [Prod.mk.injEq] at h2
                          rw [← h2.2]
                          exact ih cache1 tail cache3 hrec hwf1

theorem assembleInstKeys_wf (dc : DataCollection) (source : String) (tid : Nat) :
    ∀ (keys : List String) (cache : DsCache) (sd : SourceData) (cache2 : DsCache),
      assembleInstKeys dc source tid keys cache = .ok (sd, cache2) →
      CacheWF dc cache → CacheWF dc cache2 := by
  intro keys
  induction keys with
  | nil =>
      intro cache sd cache2 h hwf
      simp only [assembleInstKeys] at h
      obtain h2 := Except.ok.inj h
      rw [Prod.mk.injEq] at h2
      rw [← h2.2]
      exact hwf
  | cons key rest ih =>
      intro cache sd cache2 h hwf
      simp only [assembleInstKeys] at h
      cases hfd : iterFindData dc cache source key tid with
      | error e => rw [hfd] at h; cases h
      | ok rc =>
          obtain ⟨r, cache1⟩ := rc
          have hwf1 := iterFindData_wf dc cache source key tid r cache1 hfd hwf
          cases r with
          | none =>
              simp only [hfd] at h
              exact ih cache1 sd cache2 h hwf1
          | some fp =>
              obtain ⟨f, pos⟩ := fp
              simp only [hfd] at h
              cases hgi : getIndexPure dc f source (keyGroup key) with
              | error e => rw [hgi] at h; cases h
              | ok fc =>
                  simp only [hgi] at h
                  cases hf1 : fc.1.get? pos with
                  | none => simp only [hf1] at h; cases h
                  | some first =>
                      simp only [hf1] at h
                      cases hf2 : fc.2.get? pos with
                      | none => simp only [hf2] at h; cases h
                      | some count =>
                          simp only [hf2] at h
                          cases hds : alookup f.datasets
                              ("/INSTRUMENT/" ++ source ++ "/" ++ keySlashed key) with
                          | none => rw [hds] at h; cases h
                          | some rows =>
                              simp only [hds] at h
                              by_cases hcnt : count = 1
                              · rw [if_pos hcnt] at h
                                cases hrow : rows.get? first with
                                | none => rw [hrow] at h; cases h
                                | some v =>
                                    simp only [hrow] at h
                                    cases hrec : assembleInstKeys dc source tid rest cache1 with
                                    | error e => rw [hrec] at h; cases h
                                    | ok tc =>
                                        obtain ⟨tail, cache3⟩ := tc
                                        simp only [hrec] at h
                                        obtain h2 := Except.ok.inj h
                                        rw [Prod.mk.injEq] at h2
                                        rw [← h2.2]
                                        exact ih cache1 tail cache3 hrec hwf1
                              · rw [if_neg hcnt] at h
                                cases hrec : assembleInstKeys dc source tid rest cache1 with
                                | error e => rw [hrec] at h; cases h
                                | ok tc =>
                                    obtain ⟨tail, cache3⟩ := tc
                                    simp only [hrec] at h
                                    obtain h2 := Except.ok.inj h
                                    rw [Prod.mk.injEq] at h2
                                    rw [← h2.2]
                                    exact ih cache1 tail cache3 hrec hwf1

theorem assembleCtrlKeys_absent (dc : DataCollection) (source : String) (tid : Nat)
    (segs : List Segment)
    (hsegs : alookup dc.source_file_mapping source = some segs)
    (hnone : findDataSegs segs tid = none) :
    ∀ (keys : List String) (cache : DsCache), CacheWF dc cache →
      assembleCtrlKeys dc source tid keys cache = .ok ([], cache) := by
  intro keys
  induction keys with
  | nil => intro cache _; rfl
  | cons key rest ih =>
      intro cache hwf
      have hfd := iterFindData_absent dc cache source key tid segs hwf hsegs hnone
      simp only [assembleCtrlKeys, hfd]
      exact ih cache hwf

theorem assembleInstKeys_absent (dc : DataCollection) (source : String) (tid : Nat)
    (segs : List Segment)
    (hsegs : alookup dc.source_file_mapping source = some segs)
    (hnone : findDataSegs segs tid = none) :
    ∀ (keys : List String) (cache : DsCache), CacheWF dc cache →
      assembleInstKeys dc source tid keys cache = .ok ([], cache) := by
  intro keys
  induction keys with
  | nil => intro cache _; rfl
  | cons key rest ih =>
      intro cache hwf
      have hfd := iterFindData_absent dc cache source key tid segs hwf hsegs hnone
      simp only [assembleInstKeys, hfd]
      exact ih cache hwf

theorem findDataDC_none (dc : DataCollection) (s : String) (tid : Nat)
    (h : findDataDC dc s tid = .ok none) :
    ∃ segs, alookup dc.source_file_mapping s = some segs
      ∧ findDataSegs segs tid = none := by
  unfold findDataDC at h
  cases hsm : alookup dc.source_file_mapping s with
  | none => rw [hsm] at h; cases h
  | some segs =>
      simp only [hsm] at h
      exact ⟨segs, rfl, Except.ok.inj h⟩

theorem assembleLoop_props (dc : DataCollection) (tid : Nat) (isCtrl : Bool) :
    ∀ (srcs : List String) (cache : DsCache) (res res2 : TrainData) (cache2 : DsCache),
      assembleLoop dc tid isCtrl srcs cache res = .ok (res2, cache2) →
      CacheWF dc cache →
      CacheWF dc cache2 ∧
      ∀ s, findDataDC dc s tid = .ok none →
        (s ∈ srcs → alookup res2 s = some []) ∧
        (s ∉ srcs → alookup res2 s = alookup res s) := by
  intro srcs
  induction srcs with
  | nil =>
      intro cache res res2 cache2 h hwf
      simp only [assembleLoop] at h
      obtain h2 := Except.ok.inj h
      rw [Prod.mk.injEq] at h2
      refine ⟨by rw [← h2.2]; exact hwf, ?_⟩
      intro s _
      exact ⟨fun hs => absurd hs (List.not_mem_nil s), fun _ => by rw [← h2.1]⟩
  | cons src rest ih =>
      intro cache res res2 cache2 h hwf
      simp only [assembleLoop] at h
      cases hks : keysForSourcePure dc src with
      | error e => rw [hks] at h; cases h
      | ok ks =>
          simp only [hks] at h
          cases hak : (if isCtrl then assembleCtrlKeys dc src tid (sortedSources ks) cache
              else assembleInstKeys dc src tid (sortedSources ks) cache) with
          | error e => rw [hak] at h; cases h
          | ok sc =>
              obtain ⟨sd, cache1⟩ := sc
              simp only [hak] at h
              have hwf1 : CacheWF dc cache1 := by
                cases isCtrl with
                | true =>
                    rw [if_pos rfl] at hak
                    exact assembleCtrlKeys_wf dc src tid _ cache sd cache1 hak hwf
                | false =>
                    rw [if_neg Bool.false_ne_true] at hak
                    exact assembleInstKeys_wf dc src tid _ cache sd cache1 hak hwf
              obtain ⟨hwfr, hrest⟩ := ih cache1 (aupsert res src sd) res2 cache2 h hwf1
              refine ⟨hwfr, ?_⟩
              intro s hsnone
              obtain ⟨hin, hout⟩ := hrest s hsnone
              constructor
              · intro hs
                rcases List.mem_cons.mp hs with rfl | hs2
                · by_cases hsr : s ∈ rest
                  · exact hin hsr
                  · obtain ⟨segs, hsm, hnone⟩ := findDataDC_none dc s tid hsnone
                    have habs : (if isCtrl then
                          assembleCtrlKeys dc s tid (sortedSources ks) cache
                        else assembleInstKeys dc s tid (sortedSources ks) cache)
                        = .ok ([], cache) := by
                      cases isCtrl with
                      | true =>
                          rw [if_pos rfl]
                          exact assembleCtrlKeys_absent dc s tid segs hsm hnone _ cache hwf
                      | false =>
                          rw [if_neg Bool.false_ne_true]
                          exact assembleInstKeys_absent dc s tid segs hsm hnone _ cache hwf
                    have heq := Except.ok.inj (habs.symm.trans hak)
                    rw [Prod.mk.injEq] at heq
                    rw [hout hsr, alookup_aupsert_self, ← heq.1]
                · exact hin hs2
              · intro hs
                have hneq : s ≠ src := fun he => hs (he ▸ List.mem_cons_self src rest)
                have hsr : s ∉ rest := fun h2 => hs (List.mem_cons_of_mem src h2)
                rw [hout hsr, alookup_aupsert_ne res src s sd hneq]

theorem assembleData_props (dc : DataCollection) (tid : Nat) (cache : DsCache)
    (td : TrainData) (cache2 : DsCache)
    (h : assembleData dc tid cache = .ok (td, cache2)) (hwf : CacheWF dc cache) :
    CacheWF dc cache2 ∧
    ∀ s, (s ∈ dc.control_sources ∨ s ∈ dc.instrument_sources) →
      findDataDC dc s tid = .ok none → alookup td s = some [] := by
  unfold assembleData at h
  cases h1 : assembleLoop dc tid true (sortedSources dc.control_sources) cache [] with
  | error e => rw [h1] at h; cases h
  | ok rc =>
      obtain ⟨res1, cache1⟩ := rc
      simp only [h1] at h
      obtain ⟨hwf1, hp1⟩ := assembleLoop_props dc tid true _ cache [] res1 cache1 h1 hwf
      obtain ⟨hwf2, hp2⟩ := assembleLoop_props dc tid false _ cache1 res1 td cache2 h hwf1
      refine ⟨hwf2, ?_⟩
      intro s hcats hnone
      rcases hcats with hc | hi
      · by_cases hii : s ∈ sortedSources dc.instrument_sources
        · exact (hp2 s hnone).1 hii
        · rw [(hp2 s hnone).2 hii]
          exact (hp1 s hnone).1 (mem_sortedSources.mpr hc)
      · exact (hp2 s hnone).1 (mem_sortedSources.mpr hi)

theorem iterTrainsAux_false_props (dc : DataCollection) :
    ∀ (tids : List Nat) (cache : DsCache) (res : List (Nat × TrainData)),
      CacheWF dc cache →
      iterTrainsAux dc false tids cache = .ok res →
      res.map Prod.fst = tids ∧
      ∀ p ∈ res, ∀ s, (s ∈ dc.control_sources ∨ s ∈ dc.instrument_sources) →
        findDataDC dc s p.1 = .ok none → alookup p.2 s = some [] := by
  intro tids
  induction tids with
  | nil =>
      intro cache res hwf h
      simp only [iterTrainsAux] at h
      obtain rfl := Except.ok.inj h
      exact ⟨rfl, fun p hp => absurd hp (List.not_mem_nil p)⟩
  | cons tid rest ih =>
      intro cache res hwf h
      simp only [iterTrainsAux] at h
      rw [if_neg Bool.false_ne_true] at h
      cases had : assembleData dc tid cache with
      | error e => rw [had] at h; cases h
      | ok tc =>
          obtain ⟨td, cache1⟩ := tc
          simp only [had] at h
          obtain ⟨hwf1, habs⟩ := assembleData_props dc tid cache td cache1 had hwf
          cases hrec : iterTrainsAux dc false rest cache1 with
          | error e => rw [hrec] at h; cases h
          | ok tail =>
              simp only [hrec] at h
              obtain rfl := Except.ok.inj h
              obtain ⟨hmap, hall⟩ := ih cache1 tail hwf1 hrec
              refine ⟨by rw [List.map_cons, hmap], ?_⟩
              intro p hp s hcats hnone
              rcases List.mem_cons.mp hp with rfl | hp2
              · exact habs s hcats hnone
              · exact hall p hp2 s hcats hnone

theorem iterTrainsAux_true_map (dc : DataCollection) :
    ∀ (tids : List Nat) (cache : DsCache) (res : List (Nat × TrainData)),
      iterTrainsAux dc true tids cache = .ok res →
      res.map Prod.fst = tids.filter (fun t => checkDataMissing dc t = .ok false) := by
  intro tids
  induction tids with
  | nil =>
      intro cache res h
      simp only [iterTrainsAux] at h
      obtain rfl := Except.ok.inj h
      rfl
  | cons tid rest ih =>
      intro cache res h
      simp only [iterTrainsAux] at h
      rw [if_pos trivial] at h
      cases hcd : checkDataMissing dc tid with
      | error e => rw [hcd] at h; cases h
      | ok m =>
          cases m with
          | true =>
              simp only [hcd] at h
              rw [ih cache res h]
              exact (List.filter_cons_of_neg (by rw [hcd]; decide)).symm
          | false =>
              simp only [hcd] at h
              cases had : assembleData dc tid cache with
              | error e => rw [had] at h; cases h
              | ok tc =>
                  obtain ⟨td, cache1⟩ := tc
                  simp only [had] at h
                  cases hrec : iterTrainsAux dc true rest cache1 with
                  | error e => rw [hrec] at h; cases h
                  | ok tail =>
                      simp only [hrec] at h
                      obtain rfl := Except.ok.inj h
                      rw [List.map_cons, ih cache1 tail hrec]
                      exact (List.filter_cons_of_pos (by rw [hcd]; decide)).symm

/-- The train-incompleteness condition as `_check_data_missing` actually
decides it: a control source with no segment containing the train, an
instrument source with no segment containing the train, or an instrument
source whose index reports a zero count at the train position for some group
of its keys. -/
def trainIncomplete (dc : DataCollection) (tid : Nat) : Prop :=
  (∃ s ∈ dc.control_sources, findDataDC dc s tid = .ok none) ∨
  (∃ s ∈ dc.instrument_sources,
    findDataDC dc s tid = .ok none ∨
    ∃ f pos, findDataDC dc s tid = .ok (some (f, pos)) ∧
      ∃ ks, keysForSourcePure dc s = .ok ks ∧
        ∃ grp ∈ groupsOf ks, ∃ fc, getIndexPure dc f s grp = .ok fc ∧
          fc.2.get? pos = some 0)

theorem checkMissingGroups_iff (dc : DataCollection) (f : H5File) (source : String)
    (pos : Nat) :
    ∀ (grps : List String) (m : Bool),
      checkMissingGroups dc f source pos grps = .ok m →
      (m = true ↔ ∃ grp ∈ grps, ∃ fc, getIndexPure dc f source grp = .ok fc ∧
        fc.2.get? pos = some 0) := by
  intro grps
  induction grps with
  | nil =>
      intro m h
      simp only [checkMissingGroups] at h
      obtain rfl := Except.ok.inj h
      constructor
      · intro h0; cases h0
      · rintro ⟨grp, hg, _⟩
        exact absurd hg (List.not_mem_nil grp)
  | cons grp rest ih =>
      intro m h
      simp only [checkMissingGroups] at h
      cases hgi : getIndexPure dc f source grp with
      | error e => rw [hgi] at h; cases h
      | ok fc =>
          simp only [hgi] at h
          cases hc : fc.2.get? pos with
          | none => simp only [hc] at h; cases h
          | some c =>
              simp only [hc] at h
              by_cases hc0 : c = 0
              · rw [if_pos hc0] at h
                obtain rfl := Except.ok.inj h
                constructor
                · intro _
                  exact ⟨grp, List.mem_cons_self _ _, fc, hgi, by rw [← hc0]; exact hc⟩
                · intro _; rfl
              · rw [if_neg hc0] at h
                have hiff := ih m h
                constructor
                · intro hm
                  obtain ⟨g2, hg2, w⟩ := hiff.mp hm
                  exact ⟨g2, List.mem_cons_of_mem _ hg2, w⟩
                · rintro ⟨g2, hg2, fc2, hgi2, hc2⟩
                  rcases List.mem_cons.mp hg2 with rfl | hg3
                  · obtain rfl := Except.ok.inj (hgi.symm.trans hgi2)
                    exact absurd (Option.some.inj (hc.symm.trans hc2)) hc0
                  · exact hiff.mpr ⟨g2, hg3, fc2, hgi2, hc2⟩

theorem checkMissingCtrl_iff (dc : DataCollection) (tid : Nat) :
    ∀ (srcs : List String) (m : Bool),
      checkMissingCtrl dc tid srcs = .ok m →
      (m = true ↔ ∃ s ∈ srcs, findDataDC dc s tid = .ok none) := by
  intro srcs
  induction srcs with
  | nil =>
      intro m h
      simp only [checkMissingCtrl] at h
      obtain rfl := Except.ok.inj h
      constructor
      · intro h0; cases h0
      · rintro ⟨s, hs, _⟩
        exact absurd hs (List.not_mem_nil s)
  | cons src rest ih =>
      intro m h
      simp only [checkMissingCtrl] at h
      cases hfd : findDataDC dc src tid with
      | error e => rw [hfd] at h; cases h
      | ok o =>
          cases o with
          | none =>
              simp only [hfd] at h
              obtain rfl := Except.ok.inj h
              constructor
              · intro _
                exact ⟨src, List.mem_cons_self _ _, hfd⟩
              · intro _; rfl
          | some fp =>
              simp only [hfd] at h
              have hiff := ih m h
              constructor
              · intro hm
                obtain ⟨s2, hs2, w⟩ := hiff.mp hm
                exact ⟨s2, List.mem_cons_of_mem _ hs2, w⟩
              · rintro ⟨s2, hs2, hfd2⟩
                rcases List.mem_cons.mp hs2 with rfl | hs3
                · exact Option.noConfusion (Except.ok.inj (hfd.symm.trans hfd2))
                · exact hiff.mpr ⟨s2, hs3, hfd2⟩

theorem checkMissingInst_iff (dc : DataCollection) (tid : Nat) :
    ∀ (srcs : List String) (m : Bool),
      checkMissingInst dc tid srcs = .ok m →
      (m = true ↔ ∃ s ∈ srcs, findDataDC dc s tid = .ok none ∨
        ∃ f pos, findDataDC dc s tid = .ok (some (f, pos)) ∧
          ∃ ks, keysForSourcePure dc s = .ok ks ∧
            ∃ grp ∈ groupsOf ks, ∃ fc, getIndexPure dc f s grp = .ok fc ∧
              fc.2.get? pos = some 0) := by
  intro srcs
  induction srcs with
  | nil =>
      intro m h
      simp only [checkMissingInst] at h
      obtain rfl := Except.ok.inj h
      constructor
      · intro h0; cases h0
      · rintro ⟨s, hs, _⟩
        exact absurd hs (List.not_mem_nil s)
  | cons src rest ih =>
      intro m h
      simp only [checkMissingInst] at h
      cases hfd : findDataDC dc src tid with
      | error e => rw [hfd] at h; cases h
      | ok o =>
          cases o with
          | none =>
              simp only [hfd] at h
              obtain rfl := Except.ok.inj h
              constructor
              · intro _
                exact ⟨src, List.mem_cons_self _ _, Or.inl hfd⟩
              · intro _; rfl
          | some fp =>
              obtain ⟨f, pos⟩ := fp
              simp only [hfd] at h
              cases hks : keysForSourcePure dc src with
              | error e => rw [hks] at h; cases h
              | ok ks =>
                  simp only [hks] at h
                  cases hg : checkMissingGroups dc f src pos (groupsOf ks) with
                  | error e => rw [hg] at h; cases h
                  | ok b =>
                      cases b with
                      | true =>
                          simp only [hg] at h
                          obtain rfl := Except.ok.inj h
                          constructor
                          · intro _
                            obtain ⟨grp, hgm, fc, hgi, hzero⟩ :=
                              (checkMissingGroups_iff dc f src pos _ true hg).mp rfl
                            exact ⟨src, List.mem_cons_self _ _,
                              Or.inr ⟨f, pos, hfd, ks, hks, grp, hgm, fc, hgi, hzero⟩⟩
                          · intro _; rfl
                      | false =>
                          simp only [hg] at h
                          have hiff := ih m h
                          constructor
                          · intro hm
                            obtain ⟨s2, hs2, w⟩ := hiff.mp hm
                            exact ⟨s2, List.mem_cons_of_mem _ hs2, w⟩
                          · rintro ⟨s2, hs2, w⟩
                            rcases List.mem_cons.mp hs2 with rfl | hs3
                            · rcases w with hfd2 | ⟨f2, pos2, hfd2, ks2, hks2, grpw⟩
                              · exact Option.noConfusion (Except.ok.inj (hfd.symm.trans hfd2))
                              · obtain hfp := Option.some.inj (Except.ok.inj (hfd.symm.trans hfd2))
                                rw [Prod.mk.injEq] at hfp
                                obtain ⟨hf, hp⟩ := hfp
                                subst hf
                                subst hp
                                obtain rfl := Except.ok.inj (hks.symm.trans hks2)
                                exact absurd ((checkMissingGroups_iff dc f s2 pos _
                                  false hg).mpr grpw) Bool.false_ne_true
                            · exact hiff.mpr ⟨s2, hs3, w⟩

theorem checkDataMissing_iff (dc : DataCollection) (tid : Nat) (m : Bool)
    (h : checkDataMissing dc tid = .ok m) : (m = true ↔ trainIncomplete dc tid) := by
  unfold checkDataMissing at h
  cases hc : checkMissingCtrl dc tid (sortedSources dc.control_sources) with
  | error e => rw [hc] at h; cases h
  | ok b =>
      cases b with
      | true =>
          simp only [hc] at h
          obtain rfl := Except.ok.inj h
          constructor
          · intro _
            obtain ⟨s, hs, hfd⟩ := (checkMissingCtrl_iff dc tid _ true hc).mp rfl
            exact Or.inl ⟨s, mem_sortedSources.mp hs, hfd⟩
          · intro _; rfl
      | false =>
          simp only [hc] at h
          have hctrlf := checkMissingCtrl_iff dc tid _ false hc
          have hinst := checkMissingInst_iff dc tid _ m h
          constructor
          · intro hm
            obtain ⟨s, hs, w⟩ := hinst.mp hm
            exact Or.inr ⟨s, mem_sortedSources.mp hs, w⟩
          · intro hcond
            rcases hcond with ⟨s, hs, hfd⟩ | ⟨s, hs, w⟩
            · exact absurd (hctrlf.mpr ⟨s, mem_sortedSources.mpr hs, hfd⟩)
                Bool.false_ne_true
            · exact hinst.mpr ⟨s, mem_sortedSources.mpr hs, w⟩

/-- A control source with data only at train 1 and an instrument source with
data only at train 2. -/
def fileC6a : H5File :=
  { fileId := 61, indexTrainIds := [1], dataSourceIds := ["CONTROL/A"],
    indexAreas := [], datasets := [("/CONTROL/A/x", [11])],
    visitKeys := [("/CONTROL/A", {"x"})] }

def fileC6b : H5File :=
  { fileId := 62, indexTrainIds := [2], dataSourceIds := ["INSTRUMENT/B:ch/g"],
    indexAreas := [(("B:ch", "g"), .withCount [0] [1])],
    datasets := [("/INSTRUMENT/B:ch/g/k", [200])],
    visitKeys := [("/INSTRUMENT/B:ch", {"g.k"})] }

def dcC6 : DataCollection :=
  { instrument_sources := {"B:ch"}, control_sources := {"A"}, train_ids := [1, 2],
    source_file_mapping := [("A", [([1], fileC6a)]), ("B:ch", [([2], fileC6b)])],
    index_cache := [], source_keys := [] }

/-- C6, counterexample: train 1 is skipped by a require-all iteration over
`dcC6` although no retained control source lacks a segment containing it and
no instrument group reports a zero count for it (the instrument source simply
has no segment containing train 1, a case the claim omits): the control source
`A` resolves train 1, the only instrument source `B:ch` resolves to `None`,
`_check_data_missing` returns `True`, and the iteration yields nothing. -/
theorem c6_counterexample :
    checkDataMissing dcC6 1 = .ok true ∧
    iterTrains dcC6 true = .ok [] ∧
    ¬ ((∃ s ∈ dcC6.control_sources, findDataDC dcC6 s 1 = .ok none) ∨
       (∃ s ∈ dcC6.instrument_sources, ∃ f pos,
         findDataDC dcC6 s 1 = .ok (some (f, pos)) ∧
         ∃ ks, keysForSourcePure dcC6 s = .ok ks ∧
           ∃ grp ∈ groupsOf ks, ∃ fc, getIndexPure dcC6 f s grp = .ok fc ∧
             fc.2.get? pos = some 0)) := by
  refine ⟨by decide, by decide, ?_⟩
  rintro (⟨s, hs, hfd⟩ | ⟨s, hs, f, pos, hfd, _⟩)
  · have hcs : dcC6.control_sources = {"A"} := rfl
    rw [hcs] at hs
    rw [Finset.mem_singleton.mp hs] at hfd
    exact absurd hfd (by decide)
  · have his : dcC6.instrument_sources = {"B:ch"} := rfl
    rw [his] at hs
    rw [Finset.mem_singleton.mp hs] at hfd
    have hb : findDataDC dcC6 "B:ch" 1 = .ok none := by decide
    exact Option.noConfusion (Except.ok.inj (hb.symm.trans hfd))

/-- C6 (amended): a require-all iteration yields exactly the train IDs that
`_check_data_missing` marks complete, in order; `_check_data_missing` marks a
train incomplete exactly when some retained control source has no segment
containing it, some retained instrument source has no segment containing it
(the clause the original claim omits), or some retained instrument source's
group reports a zero count at the train's position; and an iteration with
`require_all=False` yields every selected train ID, with an empty per-source
mapping for each source that has no data at the train. -/
theorem c6_iterate_amended :
    (∀ (dc : DataCollection) (res : List (Nat × TrainData)),
      iterTrains dc true = .ok res →
      res.map Prod.fst
        = dc.train_ids.filter (fun t => checkDataMissing dc t = .ok false)) ∧
    (∀ (dc : DataCollection) (tid : Nat) (m : Bool),
      checkDataMissing dc tid = .ok m → (m = true ↔ trainIncomplete dc tid)) ∧
    (∀ (dc : DataCollection) (res : List (Nat × TrainData)),
      iterTrains dc false = .ok res →
      res.map Prod.fst = dc.train_ids ∧
      ∀ p ∈ res, ∀ s, (s ∈ dc.control_sources ∨ s ∈ dc.instrument_sources) →
        findDataDC dc s p.1 = .ok none → alookup p.2 s = some []) := by
  refine ⟨?_, ?_, ?_⟩
  · intro dc res h
    unfold iterTrains at h
    exact iterTrainsAux_true_map dc dc.train_ids [] res h
  · intro dc tid m h
    exact checkDataMissing_iff dc tid m h
  · intro dc res h
    unfold iterTrains at h
    exact iterTrainsAux_false_props dc dc.train_ids [] res (cacheWF_nil dc) h

/-- The result of iterating `dcC6` without requiring complete trains. -/
def resC6 : List (Nat × TrainData) :=
  [(1, [("A", [("x", TrainValue.one 11)]), ("B:ch", [])]),
   (2, [("A", []), ("B:ch", [("g.k", TrainValue.one 200)])])]

/-- C6, witness: the amended statement applied to the two-source collection:
the require-all iteration yields the filtered (here empty) train list, train 1
is incomplete by the amended condition, and the permissive iteration yields
both trains with an empty mapping for each absent source. -/
theorem c6_iterate_amended_witness :
    (([] : List (Nat × TrainData)).map Prod.fst
      = dcC6.train_ids.filter (fun t => checkDataMissing dcC6 t = .ok false)) ∧
    (true = true ↔ trainIncomplete dcC6 1) ∧
    (resC6.map Prod.fst = dcC6.train_ids ∧
      ∀ p ∈ resC6, ∀ s, (s ∈ dcC6.control_sources ∨ s ∈ dcC6.instrument_sources) →
        findDataDC dcC6 s p.1 = .ok none → alookup p.2 s = some []) :=
  ⟨c6_iterate_amended.1 dcC6 [] (by decide),
   c6_iterate_amended.2.1 dcC6 1 true (by decide),
   c6_iterate_amended.2.2 dcC6 resC6 (by decide)⟩

/-! ### Properties of the sorting helpers -/

theorem mem_sortedSet (a : Nat) (l : List Nat) : a ∈ sortedSet l ↔ a ∈ l := by
  unfold sortedSet
  rw [(perm_sortListBy _ _).mem_iff]
  exact List.mem_dedup

theorem nodup_sortedSet (l : List Nat) : (sortedSet l).Nodup :=
  (perm_sortListBy _ _).nodup_iff.mpr l.nodup_dedup

theorem sorted_le_sortedSet (l : List Nat) : (sortedSet l).Sorted (· ≤ ·) := by
  have h := pairwise_sortListBy (fun a b : Nat => decide (a ≤ b))
    (fun a b => by rcases Nat.le_total a b with h | h <;> simp [h])
    (fun a b c h1 h2 => by
      simp only [decide_eq_true_eq] at h1 h2 ⊢
      exact le_trans h1 h2) l.dedup
  refine List.Pairwise.imp ?_ h
  intro a b hab
  simpa using hab

theorem sorted_lt_sortedSet (l : List Nat) : (sortedSet l).Sorted (· < ·) :=
  List.Sorted.lt_of_le (sorted_le_sortedSet l) (nodup_sortedSet l)

theorem sorted_lt_eq_of_mem_iff {l1 l2 : List Nat}
    (h1 : l1.Sorted (· < ·)) (h2 : l2.Sorted (· < ·))
    (hm : ∀ a, a ∈ l1 ↔ a ∈ l2) : l1 = l2 := by
  haveI : IsAntisymm Nat (· < ·) :=
    ⟨fun a b hab hba => absurd hba (not_lt.mpr (le_of_lt hab))⟩
  have hperm : l1.Perm l2 :=
    (List.perm_ext_iff_of_nodup (h1.nodup) (h2.nodup)).mpr hm
  exact List.eq_of_perm_of_sorted hperm h1 h2

theorem sortedSet_congr {l1 l2 : List Nat} (hm : ∀ a, a ∈ l1 ↔ a ∈ l2) :
    sortedSet l1 = sortedSet l2 :=
  sorted_lt_eq_of_mem_iff (sorted_lt_sortedSet l1) (sorted_lt_sortedSet l2)
    (fun a => by rw [mem_sortedSet, mem_sortedSet]; exact hm a)

theorem sortedSet_of_sorted_lt {l : List Nat} (h : l.Sorted (· < ·)) :
    sortedSet l = l :=
  sorted_lt_eq_of_mem_iff (sorted_lt_sortedSet l) h
    (fun a => mem_sortedSet a l)



/-! ### The train-ID invariant (claim C1) -/

/-- All train IDs of all segments of a registry, in registry order. -/
def flatSegTids (m : List (String × List Segment)) : List Nat :=
  (m.map (fun sv => (sv.2.map Prod.fst).flatten)).flatten

/-- All train IDs of all retained segments of a collection. -/
def allSegTids (dc : DataCollection) : List Nat := flatSegTids dc.source_file_mapping

/-- The invariant claimed for `train_ids`: it is exactly the sorted
de-duplicated union of the train IDs of the retained registry segments. -/
def TrainIdsInvariant (dc : DataCollection) : Prop :=
  dc.train_ids = sortedSet (allSegTids dc)

theorem mem_flatSegTids {m : List (String × List Segment)} {a : Nat} :
    a ∈ flatSegTids m ↔ ∃ sv ∈ m, ∃ seg ∈ sv.2, a ∈ seg.1 := by
  simp only [flatSegTids, List.mem_flatten, List.mem_map]
  constructor
  · rintro ⟨x, ⟨sv, hsv, rfl⟩, hx⟩
    rcases List.mem_flatten.mp hx with ⟨y, hy, hay⟩
    rcases List.mem_map.mp hy with ⟨seg, hseg, rfl⟩
    exact ⟨sv, hsv, seg, hseg, hay⟩
  · rintro ⟨sv, hsv, seg, hseg, ha⟩
    exact ⟨(sv.2.map Prod.fst).flatten, ⟨sv, hsv, rfl⟩,
      List.mem_flatten.mpr ⟨seg.1, List.mem_map.mpr ⟨seg, hseg, rfl⟩, ha⟩⟩

/-! ### Properties of the Python slice embedding -/

theorem pySlice_some {α : Type} {start stop step : Option Int} {l res : List α}
    (h : pySlice start stop step l = some res) :
    step.getD 1 ≠ 0 ∧
      res = (List.range (sliceCount (sliceStartIx start (step.getD 1) l.length)
          (sliceStopIx stop (step.getD 1) l.length) (step.getD 1))).filterMap
        (fun k : Nat => l.get? ((sliceStartIx start (step.getD 1) l.length)
          + (k : Int) * step.getD 1).toNat) := by
  unfold pySlice at h
  split at h
  · exact absurd h (by simp)
  · rename_i hne
    refine ⟨hne, ?_⟩
    exact (Option.some.inj h).symm

theorem pySlice_subset {α : Type} {start stop step : Option Int} {l res : List α}
    (h : pySlice start stop step l = some res) : ∀ a ∈ res, a ∈ l := by
  obtain ⟨-, rfl⟩ := pySlice_some h
  intro a ha
  rcases List.mem_filterMap.mp ha with ⟨k, -, hk⟩
  exact List.get?_mem hk

theorem sliceStartIx_nonneg {start : Option Int} {st : Int} (hst : 0 < st) (n : Nat) :
    0 ≤ sliceStartIx start st n := by
  unfold sliceStartIx
  have hneg : ¬ st < 0 := by omega
  cases start with
  | none => simp [hneg]
  | some v =>
      simp only [hneg, if_false]
      split
      · exact le_max_left 0 _
      · rename_i hv
        have hv0 : (0 : Int) ≤ v := by omega
        exact le_min hv0 (by positivity)

theorem pySlice_sorted_lt {start stop step : Option Int} {l res : List Nat}
    (hl : l.Sorted (fun a b => a < b)) (hst : 0 < step.getD 1)
    (h : pySlice start stop step l = some res) : res.Sorted (fun a b => a < b) := by
  obtain ⟨-, rfl⟩ := pySlice_some h
  set st := step.getD 1 with hstdef
  set a := sliceStartIx start st l.length with hadef
  have ha0 : 0 ≤ a := sliceStartIx_nonneg hst l.length
  refine List.Pairwise.filterMap _ ?_ (List.pairwise_lt_range _)
  intro k k2 hkk x hx y hy
  simp only [Option.mem_def] at hx hy
  obtain ⟨hxlt, hxeq⟩ := List.get?_eq_some.mp hx
  obtain ⟨hylt, hyeq⟩ := List.get?_eq_some.mp hy
  subst hxeq hyeq
  have hmul : (k : Int) * st < (k2 : Int) * st :=
    mul_lt_mul_of_pos_right (by exact_mod_cast hkk) hst
  have hidx : (a + (k : Int) * st).toNat < (a + (k2 : Int) * st).toNat := by
    have h1 : (0 : Int) ≤ (k : Int) * st := by positivity
    omega
  exact hl.rel_get_of_lt (by simpa using hidx)


/-- The step component of a range descriptor. -/
def rangeStep : TrainRange → Option Int
  | .by_id _ _ st => st
  | .by_index _ _ st => st

theorem resolveRange_step {dc : DataCollection} {tr : TrainRange}
    {abc : Option Int × Option Int × Option Int}
    (h : resolveRange dc tr = .ok abc) : abc.2.2 = rangeStep tr := by
  unfold resolveRange at h
  split at h
  · split at h
    · cases h
    · split at h
      · cases h
      · cases h; rfl
  · cases h; rfl

theorem flatSegTids_cons (kv : String × List Segment) (rest : List (String × List Segment)) :
    flatSegTids (kv :: rest) = (kv.2.map Prod.fst).flatten ++ flatSegTids rest := by
  simp [flatSegTids]

theorem mem_flatSegTids_mappingAppendSeg (m : List (String × List Segment)) (s : String)
    (seg : Segment) (a : Nat) :
    a ∈ flatSegTids (mappingAppendSeg m s seg) ↔ a ∈ flatSegTids m ∨ a ∈ seg.1 := by
  induction m with
  | nil =>
      simp [mappingAppendSeg, flatSegTids]
  | cons kv rest ih =>
      obtain ⟨k, v⟩ := kv
      simp only [mappingAppendSeg]
      split
      · rw [flatSegTids_cons, flatSegTids_cons]
        simp only [List.map_append, List.flatten_append, List.mem_append, List.map_cons,
          List.map_nil, List.flatten_cons, List.flatten_nil, List.append_nil]
        tauto
      · rw [flatSegTids_cons, flatSegTids_cons]
        simp only [List.mem_append, ih]
        tauto

theorem mem_flatSegTids_foldAppend (srcs : List String) (m : List (String × List Segment))
    (seg : Segment) (a : Nat) (hne : srcs ≠ []) :
    a ∈ flatSegTids (srcs.foldl (fun m2 s => mappingAppendSeg m2 s seg) m) ↔
      a ∈ flatSegTids m ∨ a ∈ seg.1 := by
  induction srcs generalizing m with
  | nil => cases hne rfl
  | cons x rest ih =>
      simp only [List.foldl_cons]
      cases rest with
      | nil => simpa using mem_flatSegTids_mappingAppendSeg m x seg a
      | cons y t =>
          rw [ih (mappingAppendSeg m x seg) (by simp)]
          rw [mem_flatSegTids_mappingAppendSeg]
          tauto

theorem addFile_invariant {dc : DataCollection} {f : H5File} {res : DataCollection}
    {parsed : List (Bool × String)}
    (hp : (f.dataSourceIds.filter (· ≠ "")).mapM parseSourceId = .ok parsed)
    (hne : parsed ≠ [])
    (hinv : TrainIdsInvariant dc) (h : addFile dc f = .ok res) :
    TrainIdsInvariant res := by
  unfold addFile at h
  rw [hp] at h
  simp only [] at h
  obtain rfl := (Except.ok.inj h).symm
  obtain ⟨q, parsed2, rfl⟩ := List.exists_cons_of_ne_nil hne
  unfold TrainIdsInvariant allSegTids
  simp only []
  apply sortedSet_congr
  intro a
  rw [List.mem_append]
  have hmemq : q.2 ∈ (((q :: parsed2).filter (·.1)).map (·.2)).toFinset ∪
      (((q :: parsed2).filter (fun p => !p.1)).map (·.2)).toFinset := by
    rcases Bool.eq_false_or_eq_true q.1 with h1 | h1
    · refine Finset.mem_union_left _ ?_
      refine List.mem_toFinset.mpr (List.mem_map.mpr ⟨q, ?_, rfl⟩)
      exact List.mem_filter.mpr ⟨List.mem_cons_self _ _, by simp [h1]⟩
    · refine Finset.mem_union_right _ ?_
      refine List.mem_toFinset.mpr (List.mem_map.mpr ⟨q, ?_, rfl⟩)
      exact List.mem_filter.mpr ⟨List.mem_cons_self _ _, by simp [h1]⟩
  have hsort : sortedSources ((((q :: parsed2).filter (·.1)).map (·.2)).toFinset ∪
      (((q :: parsed2).filter (fun p => !p.1)).map (·.2)).toFinset) ≠ [] := by
    apply List.ne_nil_of_mem (a := q.2)
    exact mem_sortedSources.mpr hmemq
  rw [mem_flatSegTids_foldAppend _ _ _ _ hsort]
  rw [hinv, mem_sortedSet]
  exact Iff.rfl

theorem select_invariant {dc : DataCollection} {arg : SelectArg}
    {res dcAfter : DataCollection}
    (h : select dc arg = (.ok res, dcAfter)) : TrainIdsInvariant res := by
  unfold select at h
  split at h
  · rw [Prod.mk.injEq] at h
    cases h.1
  · split at h
    · rw [Prod.mk.injEq] at h
      cases h.1
    · simp only [] at h
      split at h
      · rw [Prod.mk.injEq] at h
        cases h.1
      · rw [Prod.mk.injEq] at h
        obtain rfl := (Except.ok.inj h.1).symm
        rfl

theorem selectTrains_sorted_subset {dc : DataCollection} {tr : TrainRange}
    {res : DataCollection}
    (hinv : TrainIdsInvariant dc)
    (hstep : 0 < (rangeStep tr).getD 1)
    (h : selectTrains dc tr = .ok res) :
    res.train_ids.Sorted (fun a b => a < b) ∧ res.train_ids.Nodup ∧
      ∀ t ∈ res.train_ids, t ∈ allSegTids res := by
  unfold selectTrains at h
  split at h
  · cases h
  · rename_i abc habc
    split at h
    · cases h
    · rename_i newTids hslice
      split at h
      · cases h
      · rename_i sks hsks
        obtain rfl := (Except.ok.inj h).symm
        have hstep2 : 0 < abc.2.2.getD 1 := by
          rw [resolveRange_step habc]; exact hstep
        have hparent : dc.train_ids.Sorted (fun a b => a < b) := by
          rw [hinv]; exact sorted_lt_sortedSet _
        have hsorted : newTids.Sorted (fun a b => a < b) :=
          pySlice_sorted_lt hparent hstep2 hslice
        refine ⟨hsorted, hsorted.imp (fun hlt => Nat.ne_of_lt hlt), ?_⟩
        intro t ht
        have htparent : t ∈ dc.train_ids := pySlice_subset hslice t ht
        rw [hinv, mem_sortedSet] at htparent
        rcases mem_flatSegTids.mp htparent with ⟨sv, hsv, seg, hseg, hts⟩
        have hkeep : seg ∈ sv.2.filter (fun seg2 => seg2.1.any (fun t2 => t2 ∈ newTids)) := by
          refine List.mem_filter.mpr ⟨hseg, ?_⟩
          simp only [List.any_eq_true]
          exact ⟨t, hts, by simpa using ht⟩
        unfold allSegTids
        rw [mem_flatSegTids]
        refine ⟨(sv.1, sv.2.filter (fun seg2 => seg2.1.any (fun t2 => t2 ∈ newTids))), ?_, seg,
          hkeep, hts⟩
        unfold keptRegistry
        refine List.mem_filterMap.mpr ⟨sv, hsv, ?_⟩
        rw [if_neg]
        simp only [List.isEmpty_eq_true]
        intro hemp
        rw [hemp] at hkeep
        cases hkeep


instance (dc : DataCollection) : Decidable (TrainIdsInvariant dc) :=
  decidable_of_iff (dc.train_ids = sortedSet (allSegTids dc)) Iff.rfl

/-- A one-file fixture: a single control source A covering trains 1, 2, 3. -/
def fileC1 : H5File :=
  { fileId := 1, indexTrainIds := [1, 2, 3], dataSourceIds := ["CONTROL/A"],
    indexAreas := [], datasets := [("/CONTROL/A/k", [10, 11, 12])],
    visitKeys := [("/CONTROL/A", {"k"})] }

/-- The collection `add_file` builds from `fileC1`. -/
def dcC1a : DataCollection :=
  { instrument_sources := ∅, control_sources := {"A"}, train_ids := [1, 2, 3],
    source_file_mapping := [("A", [([1, 2, 3], fileC1)])],
    index_cache := [], source_keys := [] }

/-- The collection `select_trains(by_index(0, 1, 1))` derives from `dcC1a`. -/
def dcC1b : DataCollection :=
  { instrument_sources := ∅, control_sources := {"A"}, train_ids := [1],
    source_file_mapping := [("A", [([1, 2, 3], fileC1)])],
    index_cache := [], source_keys := [] }

/-- C1, counterexample: a collection freshly built by `add_file` and then
restricted with `select_trains` keeps every segment that intersects the new
train-ID list in full, so its `train_ids` list `[1]` is a proper subset of,
and not equal to, the sorted de-duplicated union `[1, 2, 3]` of the train IDs
of the retained segments. -/
theorem c1_counterexample :
    addFile emptyDC fileC1 = .ok dcC1a ∧
    selectTrains dcC1a (TrainRange.by_index (some 0) (some 1) (some 1)) = .ok dcC1b ∧
    dcC1b.train_ids ≠ sortedSet (allSegTids dcC1b) := by
  exact ⟨by decide, by decide, by decide⟩

/-- C1 (amended): the run-level `train_ids` list of the empty collection, of a
collection built by a successful `add_file` call that discovered at least one
source (given the invariant held before), and of any collection returned by
`select`, is strictly increasing with no duplicates and equals the sorted
de-duplicated union of the train-ID arrays of all retained registry segments;
a collection returned by `select_trains` with a forward (positive or default
step) range descriptor has a strictly increasing, duplicate-free `train_ids`
list each member of which occurs in some retained segment, but the list need
not equal the union of the retained segments (they are kept whole whenever
they merely intersect it). -/
theorem c1_train_ids_amended :
    TrainIdsInvariant emptyDC ∧
    (∀ (dc : DataCollection) (f : H5File) (res : DataCollection)
        (parsed : List (Bool × String)),
      TrainIdsInvariant dc →
      (f.dataSourceIds.filter (· ≠ "")).mapM parseSourceId = .ok parsed → parsed ≠ [] →
      addFile dc f = .ok res →
      TrainIdsInvariant res ∧ res.train_ids.Sorted (fun a b => a < b) ∧
        res.train_ids.Nodup) ∧
    (∀ (dc : DataCollection) (arg : SelectArg) (res dcAfter : DataCollection),
      select dc arg = (.ok res, dcAfter) →
      TrainIdsInvariant res ∧ res.train_ids.Sorted (fun a b => a < b) ∧
        res.train_ids.Nodup) ∧
    (∀ (dc : DataCollection) (tr : TrainRange) (res : DataCollection),
      TrainIdsInvariant dc → 0 < (rangeStep tr).getD 1 →
      selectTrains dc tr = .ok res →
      res.train_ids.Sorted (fun a b => a < b) ∧ res.train_ids.Nodup ∧
        ∀ t ∈ res.train_ids, t ∈ allSegTids res) := by
  refine ⟨by decide, ?_, ?_, ?_⟩
  · intro dc f res parsed hinv hp hne h
    have hi := addFile_invariant hp hne hinv h
    have hs : res.train_ids.Sorted (fun a b => a < b) := by
      unfold TrainIdsInvariant at hi
      rw [hi]
      exact sorted_lt_sortedSet _
    exact ⟨hi, hs, hs.imp (fun hlt => Nat.ne_of_lt hlt)⟩
  · intro dc arg res dcAfter h
    have hi := select_invariant h
    have hs : res.train_ids.Sorted (fun a b => a < b) := by
      unfold TrainIdsInvariant at hi
      rw [hi]
      exact sorted_lt_sortedSet _
    exact ⟨hi, hs, hs.imp (fun hlt => Nat.ne_of_lt hlt)⟩
  · intro dc tr res hinv hstep h
    exact selectTrains_sorted_subset hinv hstep h

/-- C1, witness: the amended statement applied to the concrete one-file
collection and its forward restriction. -/
theorem c1_train_ids_amended_witness :
    (TrainIdsInvariant dcC1a ∧ dcC1a.train_ids.Sorted (fun a b => a < b) ∧
      dcC1a.train_ids.Nodup) ∧
    (dcC1b.train_ids.Sorted (fun a b => a < b) ∧ dcC1b.train_ids.Nodup ∧
      ∀ t ∈ dcC1b.train_ids, t ∈ allSegTids dcC1b) :=
  ⟨c1_train_ids_amended.2.1 emptyDC fileC1 dcC1a [(false, "A")] (by decide) (by decide)
      (by decide) (by decide),
   c1_train_ids_amended.2.2.2 dcC1a (TrainRange.by_index (some 0) (some 1) (some 1)) dcC1b
      (by decide) (by decide) (by decide)⟩


/-- C2: behaviour of `_tid_to_slice_ix` on a by-ID endpoint over the non-empty
train-ID list `[10, 12]`.  A present ID resolves to its exact position; a start
ID below the first known ID resolves to the beginning while a stop ID there
raises the fatal before-this-run error; a stop ID above the last known ID
resolves to the end while a start ID there raises the fatal after-this-run
error; but an ID strictly inside the span that is absent (the gap 11) raises a
`TypeError` instead of resolving to the next greater position, because the
code compares the Python list `train_ids` with an integer
(`(train_ids > tid).nonzero()`), which is only valid for numpy arrays — the
adjacent comment states the intended next-greater-position behaviour that the
claim and the spec describe. -/
theorem c2_tid_to_slice_ix_evaluation :
    tidToSliceIx (some 10) [10, 12] false = .ok (some 0) ∧
    tidToSliceIx (some 12) [10, 12] true = .ok (some 1) ∧
    tidToSliceIx (some 5) [10, 12] false = .ok none ∧
    tidToSliceIx (some 5) [10, 12] true
      = .error "ValueError: Train ID 5 is before this run (starts at 10)" ∧
    tidToSliceIx (some 20) [10, 12] true = .ok none ∧
    tidToSliceIx (some 20) [10, 12] false
      = .error "ValueError: Train ID 20 is after this run (ends at 12)" ∧
    tidToSliceIx (some 11) [10, 12] false
      = .error "TypeError: comparison of list and int is not supported" ∧
    tidToSliceIx (some 11) [10, 12] true
      = .error "TypeError: comparison of list and int is not supported" := by
  exact ⟨by decide, by decide, by decide, by decide, by decide, by decide, by decide, by decide⟩

/-! ### Expansion and recovery of per-train counts (claim C4) -/

/-- Re-derivation of per-train counts from an expanded label sequence: for
each train ID, in order, the number of labels equal to it. -/
def deriveCounts (trainIds labels : List Nat) : List Nat :=
  trainIds.map (fun t => labels.count t)

theorem repeatTids_cons (c t : Nat) (cs ts : List Nat) :
    repeatTids (c :: cs) (t :: ts)
      = List.replicate (u64 c) t ++ repeatTids cs ts := by
  simp [repeatTids]

theorem repeatTids_take (counts trainIds : List Nat) :
    repeatTids counts trainIds
      = repeatTids (counts.take (min counts.length trainIds.length))
          (trainIds.take (min counts.length trainIds.length)) := by
  unfold repeatTids
  congr 1
  induction trainIds generalizing counts with
  | nil => simp
  | cons t ts ih =>
      cases counts with
      | nil => simp
      | cons c cs =>
          simp only [List.length_cons, Nat.succ_min_succ, List.take_succ_cons,
            List.zip_cons_cons]
          rw [← ih cs]

theorem mem_repeatTids {a : Nat} {counts trainIds : List Nat}
    (h : a ∈ repeatTids counts trainIds) : a ∈ trainIds := by
  unfold repeatTids at h
  rcases List.mem_flatMap.mp h with ⟨tc, htc, ha⟩
  rw [List.eq_of_mem_replicate ha]
  exact (List.of_mem_zip htc).1

theorem count_repeatTids_of_not_mem {a : Nat} {counts trainIds : List Nat}
    (h : a ∉ trainIds) : (repeatTids counts trainIds).count a = 0 :=
  List.count_eq_zero.mpr (fun hmem => h (mem_repeatTids hmem))

theorem intp64_neg_iff (c : Nat) : intp64 c < 0 ↔ 2 ^ 63 ≤ u64 c := by
  unfold intp64
  by_cases h : u64 c < 2 ^ 63
  · rw [if_pos h]
    constructor
    · intro h2
      exact absurd h2 (not_lt.mpr (Int.natCast_nonneg _))
    · intro h2
      exact absurd h (not_lt.mpr h2)
  · rw [if_neg h]
    constructor
    · intro _
      exact not_lt.mp h
    · intro _
      have hu : u64 c < 2 ^ 64 := Nat.mod_lt _ (by norm_num)
      have h1 : ((2 : Int) ^ 64) = 18446744073709551616 := by norm_num
      have h2 : ((2 : Nat) ^ 64) = 18446744073709551616 := by norm_num
      rw [h2] at hu
      rw [h1]
      omega

theorem intp64_not_neg_of_lt {c : Nat} (h : c < 2 ^ 63) : ¬ intp64 c < 0 := by
  rw [intp64_neg_iff]
  have hu : u64 c = c := Nat.mod_eq_of_lt (lt_trans h (by norm_num))
  rw [hu]
  exact not_le.mpr h

theorem mem_take_min_zip : ∀ (counts trainIds : List Nat) (c : Nat),
    c ∈ counts.take (min counts.length trainIds.length) →
    ∃ t, (t, c) ∈ trainIds.zip counts := by
  intro counts
  induction counts with
  | nil => intro tids c h; simp at h
  | cons c0 cs ih =>
      intro tids c h
      cases tids with
      | nil => simp at h
      | cons t ts =>
          simp only [List.length_cons, Nat.succ_min_succ, List.take_succ_cons] at h
          rcases List.mem_cons.mp h with rfl | h2
          · exact ⟨t, List.mem_cons_self _ _⟩
          · obtain ⟨t2, ht2⟩ := ih ts c h2
            exact ⟨t2, List.mem_cons_of_mem _ ht2⟩

theorem zip_snd_mem_take_min : ∀ (counts trainIds : List Nat) (t c : Nat),
    (t, c) ∈ trainIds.zip counts →
    c ∈ counts.take (min counts.length trainIds.length) := by
  intro counts
  induction counts with
  | nil => intro tids t c h; simp at h
  | cons c0 cs ih =>
      intro tids t c h
      cases tids with
      | nil => simp at h
      | cons t0 ts =>
          simp only [List.zip_cons_cons] at h
          simp only [List.length_cons, Nat.succ_min_succ, List.take_succ_cons]
          rcases List.mem_cons.mp h with heq | h2
          · rw [Prod.mk.injEq] at heq
            rw [heq.2]
            exact List.mem_cons_self _ _
          · exact List.mem_cons_of_mem _ (ih ts t c h2)

theorem expandTrainids_ok_of_small (first counts trainIds : List Nat)
    (h : ∀ c ∈ counts.take (min counts.length trainIds.length), c < 2 ^ 63) :
    expandTrainids first counts trainIds = .ok (repeatTids counts trainIds) := by
  have hcond : (trainIds.zip counts).any (fun tc => decide (intp64 tc.2 < 0)) = false := by
    rw [List.any_eq_false]
    intro tc htc
    have hlt := h tc.2 (zip_snd_mem_take_min counts trainIds tc.1 tc.2 htc)
    simp only [decide_eq_true_eq]
    exact intp64_not_neg_of_lt hlt
  unfold expandTrainids
  rw [if_neg (by rw [hcond]; exact Bool.false_ne_true)]

theorem expandTrainids_ok_of_le_one (first counts trainIds : List Nat)
    (hno : counts.any (fun c => c > 1) = false) :
    expandTrainids first counts trainIds = .ok (repeatTids counts trainIds) := by
  apply expandTrainids_ok_of_small
  intro c hc
  have hmem : c ∈ counts := List.mem_of_mem_take hc
  rw [List.any_eq_false] at hno
  have h1 := hno c hmem
  simp only [decide_eq_true_eq] at h1
  exact lt_of_le_of_lt (by omega) (by norm_num : (1 : Nat) < 2 ^ 63)

/-- C4, counterexample: with the duplicated train-ID array `[5, 5]`, the two
distinct counts arrays `[1, 2]` and `[2, 1]` expand to the same label sequence
`[5, 5, 5]`, so no derivation can recover the original counts, and the
occurrence-count derivation indeed returns `[3, 3]`, not `[1, 2]`. -/
theorem c4_counterexample :
    expandTrainids [] [1, 2] [5, 5] = .ok [5, 5, 5] ∧
    expandTrainids [] [2, 1] [5, 5] = .ok [5, 5, 5] ∧
    ([1, 2] : List Nat) ≠ [2, 1] ∧
    deriveCounts [5, 5] [5, 5, 5] ≠ [1, 2] := by
  exact ⟨by decide, by decide, by decide, by decide⟩

theorem deriveCounts_repeatTids (trainIds : List Nat) : ∀ (counts : List Nat),
    trainIds.Nodup →
    (∀ c ∈ counts.take (min counts.length trainIds.length), c < 2 ^ 63) →
    deriveCounts (trainIds.take (min counts.length trainIds.length))
        (repeatTids counts trainIds)
      = counts.take (min counts.length trainIds.length) := by
  induction trainIds with
  | nil => intro counts _ _; simp [deriveCounts, repeatTids]
  | cons t ts ih =>
      intro counts hnd hsmall
      cases counts with
      | nil => simp [deriveCounts, repeatTids]
      | cons c cs =>
          have htts : t ∉ ts := (List.nodup_cons.mp hnd).1
          have hndts : ts.Nodup := (List.nodup_cons.mp hnd).2
          simp only [List.length_cons, Nat.succ_min_succ, List.take_succ_cons] at hsmall ⊢
          have hc : c < 2 ^ 63 := hsmall c (List.mem_cons_self _ _)
          have hcs : ∀ c2 ∈ cs.take (min cs.length ts.length), c2 < 2 ^ 63 :=
            fun c2 h2 => hsmall c2 (List.mem_cons_of_mem _ h2)
          simp only [repeatTids_cons, deriveCounts, List.map_cons]
          rw [List.cons_eq_cons]
          constructor
          · rw [List.count_append, List.count_replicate,
              count_repeatTids_of_not_mem htts]
            have hu : u64 c = c := Nat.mod_eq_of_lt (lt_trans hc (by norm_num))
            simp [hu]
          · have htail := ih cs hndts hcs
            simp only [deriveCounts] at htail
            rw [← htail]
            apply List.map_congr_left
            intro t2 ht2
            have ht2ts : t2 ∈ ts := List.mem_of_mem_take ht2
            have hne : t2 ≠ t := fun h => htts (h ▸ ht2ts)
            rw [List.count_append, List.count_replicate]
            simp only [beq_iff_eq]
            rw [if_neg (fun h => hne h.symm)]
            simp

/-- C4 (amended): `_expand_trainids` truncates `counts` and `trainIds` to the
shorter of the two lengths and casts the uint64 counts to signed `np.intp`.
Whenever some truncated count lies at or above `2 ^ 63` the cast is negative
and the call raises `ValueError` instead of expanding; when every truncated
count is below `2 ^ 63` (the cast is then the identity) the expansion repeats
each train ID exactly its count times (count 0 contributing no label), and if
in addition the train IDs are free of duplicates, re-deriving per-train counts
from the expanded label sequence (the number of labels equal to each truncated
train ID, in order) recovers the truncated counts array exactly.  Without the
duplicate-free hypothesis recovery is impossible. -/
theorem c4_expand_recover_amended (first counts trainIds : List Nat)
    (hnd : trainIds.Nodup) :
    ((∃ c ∈ counts.take (min counts.length trainIds.length),
        2 ^ 63 ≤ c ∧ c < 2 ^ 64) →
      expandTrainids first counts trainIds
        = .error "ValueError: negative dimensions are not allowed") ∧
    ((∀ c ∈ counts.take (min counts.length trainIds.length), c < 2 ^ 63) →
      expandTrainids first counts trainIds
        = .ok (repeatTids (counts.take (min counts.length trainIds.length))
            (trainIds.take (min counts.length trainIds.length))) ∧
      deriveCounts (trainIds.take (min counts.length trainIds.length))
          (repeatTids counts trainIds)
        = counts.take (min counts.length trainIds.length)) := by
  constructor
  · rintro ⟨c, hcmem, hle, hlt⟩
    obtain ⟨t, ht⟩ := mem_take_min_zip counts trainIds c hcmem
    have hcond : (trainIds.zip counts).any (fun tc => decide (intp64 tc.2 < 0)) = true := by
      rw [List.any_eq_true]
      refine ⟨(t, c), ht, ?_⟩
      simp only [decide_eq_true_eq]
      rw [intp64_neg_iff]
      have hu : u64 c = c := Nat.mod_eq_of_lt hlt
      rw [hu]
      exact hle
    unfold expandTrainids
    rw [if_pos hcond]
  · intro hsmall
    exact ⟨by rw [expandTrainids_ok_of_small first counts trainIds hsmall,
        repeatTids_take],
      deriveCounts_repeatTids trainIds counts hnd hsmall⟩

/-- C4, witness: the amended statement raising at a count of `2 ^ 63` and
recovering at counts `[2, 0, 1]` over the duplicate-free train IDs
`[10, 11, 12]`. -/
theorem c4_expand_recover_amended_witness :
    expandTrainids [0] [2 ^ 63] [7]
      = .error "ValueError: negative dimensions are not allowed" ∧
    (expandTrainids [0, 2, 2] [2, 0, 1] [10, 11, 12]
        = .ok (repeatTids
            ([2, 0, 1].take (min (List.length [2, 0, 1]) (List.length [10, 11, 12])))
            ([10, 11, 12].take (min (List.length [2, 0, 1]) (List.length [10, 11, 12])))) ∧
      deriveCounts
          ([10, 11, 12].take (min (List.length [2, 0, 1]) (List.length [10, 11, 12])))
          (repeatTids [2, 0, 1] [10, 11, 12])
        = [2, 0, 1].take (min (List.length [2, 0, 1]) (List.length [10, 11, 12]))) :=
  ⟨(c4_expand_recover_amended [0] [2 ^ 63] [7] (by decide)).1
      ⟨2 ^ 63, by decide, by decide, by decide⟩,
   (c4_expand_recover_amended [0, 2, 2] [2, 0, 1] [10, 11, 12] (by decide)).2
      (by decide)⟩

/-- C10: `select` called with a selection value of an unrecognised type (the
`other` selector shape, e.g. an integer) does not raise: `_expand_selection`
builds a `TypeError` without raising it and returns the empty pair set, so
`select` returns a collection with no sources, no keys, no registry entries,
no cached indices and an empty train-ID list, and the receiver is untouched. -/
theorem c10_select_unknown_type (dc : DataCollection) :
    select dc (.sel .other)
      = (.ok { instrument_sources := ∅, control_sources := ∅, train_ids := [],
               source_file_mapping := [], index_cache := [], source_keys := [] }, dc) := by
  unfold select expandSelection
  simp only [Finset.image_empty]
  have hmap : mappingForSel dc (sortedSources (∅ : Finset String)) = .ok [] := rfl
  rw [hmap]
  have hkeys : selectedKeysFor dc (∅ : Finset (String × String)) = [] := rfl
  rw [hkeys]
  have hinter1 : dc.instrument_sources ∩ (∅ : Finset String) = ∅ := Finset.inter_empty _
  have hinter2 : dc.control_sources ∩ (∅ : Finset String) = ∅ := Finset.inter_empty _
  rw [hinter1, hinter2]
  have hfilter : dc.index_cache.filter
      (fun e => e.1.2.1 ∈ (∅ : Finset String)) = [] := by
    rw [List.filter_eq_nil_iff]
    intro e he
    simp
  rw [hfilter]
  rfl


/-! ### `get_array` error behaviour (claims C3 and C7) -/

theorem getArraySegsInst_error {dc : DataCollection} {source key path : String}
    {pre rest : List Segment} {seg : Segment} {fi co : List Nat}
    (hpre : ∀ s2 ∈ pre, ∃ fc, getIndexPure dc s2.2 source (keyGroup key) = .ok fc ∧
       fc.2.any (fun c => c > 1) = false ∧
       ∃ rows, lookupDataset s2.2 path = .ok rows ∧
         (repeatTids fc.2 s2.1).length ≤ rows.length)
    (hbad : getIndexPure dc seg.2 source (keyGroup key) = .ok (fi, co))
    (hc : co.any (fun c => c > 1) = true) :
    getArraySegsInst dc source key path (pre ++ seg :: rest)
      = .error (source ++ "/" ++ keyGroup key
          ++ " data has more than one data point per train") := by
  induction pre with
  | nil =>
      obtain ⟨tids, f⟩ := seg
      simp only at hbad
      simp only [List.nil_append, getArraySegsInst, hbad, hc, if_true]
  | cons p ps ih =>
      obtain ⟨tids, f⟩ := p
      obtain ⟨fc, hfc, hno, rows, hrows, hlen⟩ := hpre (tids, f) (List.mem_cons_self _ _)
      simp only at hfc hrows hlen
      have hrec := ih (fun s2 hs2 => hpre s2 (List.mem_cons_of_mem _ hs2))
      have hexp := expandTrainids_ok_of_le_one fc.1 fc.2 tids hno
      have hmk : mkXArray (rows.take (repeatTids fc.2 tids).length)
          (repeatTids fc.2 tids)
          = .ok ⟨repeatTids fc.2 tids,
              rows.take (repeatTids fc.2 tids).length⟩ := by
        unfold mkXArray
        rw [if_pos (by rw [List.length_take]; omega)]
      simp only [List.cons_append, getArraySegsInst, hfc, hno, Bool.false_eq_true, if_false,
        hexp, hrows, hmk, List.append_eq, hrec]

/-- C3: for an instrument source and a valid key, if any per-train count in
the group index of any of the source registry segments is greater than one,
`get_array` raises the more-than-one-data-point-per-train error (provided the
segments before the offending one read cleanly, which is what lets the loop
reach it) and in particular never returns data. -/
theorem c3_more_than_one_point {dc : DataCollection} {source key : String}
    {pre rest : List Segment} {seg : Segment} {fi co : List Nat}
    (hck : checkField dc source key = .ok ())
    (hctrl : source ∉ dc.control_sources) (hinst : source ∈ dc.instrument_sources)
    (hmap : alookup dc.source_file_mapping source = some (pre ++ seg :: rest))
    (hpre : ∀ s2 ∈ pre, ∃ fc, getIndexPure dc s2.2 source (keyGroup key) = .ok fc ∧
       fc.2.any (fun c => c > 1) = false ∧
       ∃ rows, lookupDataset s2.2
           ("/INSTRUMENT/" ++ source ++ "/" ++ keySlashed key) = .ok rows ∧
         (repeatTids fc.2 s2.1).length ≤ rows.length)
    (hbad : getIndexPure dc seg.2 source (keyGroup key) = .ok (fi, co))
    (hc : co.any (fun c => c > 1) = true) :
    getArray dc source key
      = .error (source ++ "/" ++ keyGroup key
          ++ " data has more than one data point per train") ∧
    ∀ a, getArray dc source key ≠ .ok a := by
  have hmain : getArray dc source key
      = .error (source ++ "/" ++ keyGroup key
          ++ " data has more than one data point per train") := by
    unfold getArray
    rw [hck]
    simp only []
    rw [if_neg hctrl, if_pos hinst, hmap]
    simp only []
    rw [getArraySegsInst_error hpre hbad hc]
  refine ⟨hmain, ?_⟩
  intro a hok
  rw [hmain] at hok
  cases hok

theorem getArraySegsCtrl_all_empty {path : String} {segs : List Segment}
    (hseg : ∀ s2 ∈ segs, s2.1 = [] ∧ ∃ rows, lookupDataset s2.2 path = .ok rows) :
    getArraySegsCtrl path segs = .ok (segs.map (fun _ => (⟨[], []⟩ : XArray))) := by
  induction segs with
  | nil => rfl
  | cons p ps ih =>
      obtain ⟨tids, f⟩ := p
      obtain ⟨htids, rows, hrows⟩ := hseg (tids, f) (List.mem_cons_self _ _)
      simp only at htids
      subst htids
      simp only [getArraySegsCtrl]
      rw [hrows]
      unfold mkXArray
      simp only [List.take_zero, List.length_nil, if_pos rfl]
      rw [ih (fun s2 hs2 => hseg s2 (List.mem_cons_of_mem _ hs2))]
      rfl

theorem getArraySegsInst_all_empty {dc : DataCollection} {source key path : String}
    {segs : List Segment}
    (hseg : ∀ s2 ∈ segs, ∃ fc, getIndexPure dc s2.2 source (keyGroup key) = .ok fc ∧
       fc.2.any (fun c => c > 1) = false ∧ expandTrainids fc.1 fc.2 s2.1 = .ok [] ∧
       ∃ rows, lookupDataset s2.2 path = .ok rows) :
    getArraySegsInst dc source key path segs
      = .ok (segs.map (fun _ => (⟨[], []⟩ : XArray))) := by
  induction segs with
  | nil => rfl
  | cons p ps ih =>
      obtain ⟨tids, f⟩ := p
      obtain ⟨fc, hfc, hno, hexp, rows, hrows⟩ := hseg (tids, f) (List.mem_cons_self _ _)
      simp only at hfc hexp hrows
      have hrec := ih (fun s2 hs2 => hseg s2 (List.mem_cons_of_mem _ hs2))
      have hmk : mkXArray (rows.take (List.length ([] : List Nat))) ([] : List Nat)
          = .ok ⟨[], []⟩ := by rfl
      simp only [getArraySegsInst, hfc, hno, Bool.false_eq_true, if_false, hexp, hrows,
        hmk, hrec, List.map_cons]

theorem finishArrays_all_empty {source key : String} {arrs : List XArray}
    (hne : arrs ≠ []) (hemp : ∀ a ∈ arrs, a.data = []) :
    finishArrays source key arrs = .ok (arrs.headD ⟨[], []⟩) := by
  unfold finishArrays
  have hfilter : arrs.filter (fun a => !a.data.isEmpty) = [] := by
    rw [List.filter_eq_nil_iff]
    intro a ha
    rw [hemp a ha]
    simp
  rw [hfilter]
  cases arrs with
  | nil => cases hne rfl
  | cons a rest => rfl

/-- C7: for a valid (source, key) pair, if the source has a registry entry
with zero segments `get_array` raises the unexpected-state error asking the
user to report an issue; if every per-file segment yields an empty array (for
a control source: the segment train-ID list is empty; for an instrument
source: the expanded train-ID list is empty and no count exceeds one), the
first empty per-segment result is returned rather than an error. -/
theorem c7_empty_get_array :
    (∀ (dc : DataCollection) (source key : String),
      checkField dc source key = .ok () → source ∈ dc.control_sources →
      alookup dc.source_file_mapping source = some [] →
      getArray dc source key
        = .error ("Exception: Unable to get data for source " ++ source ++ ", key " ++ key
            ++ ". Please report an issue so we can investigate")) ∧
    (∀ (dc : DataCollection) (source key : String),
      checkField dc source key = .ok () → source ∉ dc.control_sources →
      source ∈ dc.instrument_sources →
      alookup dc.source_file_mapping source = some [] →
      getArray dc source key
        = .error ("Exception: Unable to get data for source " ++ source ++ ", key " ++ key
            ++ ". Please report an issue so we can investigate")) ∧
    (∀ (dc : DataCollection) (source key : String) (segs : List Segment),
      checkField dc source key = .ok () → source ∈ dc.control_sources →
      alookup dc.source_file_mapping source = some segs → segs ≠ [] →
      (∀ s2 ∈ segs, s2.1 = [] ∧ ∃ rows, lookupDataset s2.2
          ("/CONTROL/" ++ source ++ "/" ++ keySlashed key) = .ok rows) →
      getArray dc source key = .ok ⟨[], []⟩) ∧
    (∀ (dc : DataCollection) (source key : String) (segs : List Segment),
      checkField dc source key = .ok () → source ∉ dc.control_sources →
      source ∈ dc.instrument_sources →
      alookup dc.source_file_mapping source = some segs → segs ≠ [] →
      (∀ s2 ∈ segs, ∃ fc, getIndexPure dc s2.2 source (keyGroup key) = .ok fc ∧
         fc.2.any (fun c => c > 1) = false ∧ expandTrainids fc.1 fc.2 s2.1 = .ok [] ∧
         ∃ rows, lookupDataset s2.2
             ("/INSTRUMENT/" ++ source ++ "/" ++ keySlashed key) = .ok rows) →
      getArray dc source key = .ok ⟨[], []⟩) := by
  refine ⟨?_, ?_, ?_, ?_⟩
  · intro dc source key hck hc hmap
    unfold getArray
    rw [hck]
    simp only []
    rw [if_pos hc, hmap]
    rfl
  · intro dc source key hnc hc hmap hmap2
    unfold getArray
    rw [hnc]
    simp only []
    rw [if_neg hc, if_pos hmap]
    rw [hmap2]
    rfl
  · intro dc source key segs hck hc hmap hne hseg
    unfold getArray
    rw [hck]
    simp only []
    rw [if_pos hc, hmap]
    simp only []
    rw [getArraySegsCtrl_all_empty hseg]
    show finishArrays source key (segs.map (fun _ => (⟨[], []⟩ : XArray))) = .ok ⟨[], []⟩
    rw [finishArrays_all_empty (by simpa using hne) (by
      intro a ha
      rcases List.mem_map.mp ha with ⟨s2, hs2, rfl⟩
      rfl)]
    cases segs with
    | nil => cases hne rfl
    | cons p ps => rfl
  · intro dc source key segs hck hnc hc hmap hne hseg
    unfold getArray
    rw [hck]
    simp only []
    rw [if_neg hnc, if_pos hc, hmap]
    simp only []
    rw [getArraySegsInst_all_empty hseg]
    show finishArrays source key (segs.map (fun _ => (⟨[], []⟩ : XArray))) = .ok ⟨[], []⟩
    rw [finishArrays_all_empty (by simpa using hne) (by
      intro a ha
      rcases List.mem_map.mp ha with ⟨s2, hs2, rfl⟩
      rfl)]
    cases segs with
    | nil => cases hne rfl
    | cons p ps => rfl


/-- A one-file instrument fixture: source B:ch, group g, two data points for
the single train (count 2). -/
def fileC3 : H5File :=
  { fileId := 3, indexTrainIds := [1], dataSourceIds := ["INSTRUMENT/B:ch/g"],
    indexAreas := [(("B:ch", "g"), .withCount [0] [2])],
    datasets := [("/INSTRUMENT/B:ch/g/k", [7, 8])],
    visitKeys := [("/INSTRUMENT/B:ch", {"g.k"})] }

/-- The collection holding `fileC3`. -/
def dcC3 : DataCollection :=
  { instrument_sources := {"B:ch"}, control_sources := ∅, train_ids := [1],
    source_file_mapping := [("B:ch", [([1], fileC3)])],
    index_cache := [], source_keys := [] }

/-- C3, witness: the theorem applied to a concrete instrument source whose
only segment reports two data points for a train. -/
theorem c3_more_than_one_point_witness :
    getArray dcC3 "B:ch" "g.k"
      = .error ("B:ch" ++ "/" ++ keyGroup "g.k"
          ++ " data has more than one data point per train") ∧
    ∀ a, getArray dcC3 "B:ch" "g.k" ≠ .ok a :=
  c3_more_than_one_point (by decide) (by decide) (by decide)
    (show alookup dcC3.source_file_mapping "B:ch"
        = some ([] ++ ([1], fileC3) :: []) by decide)
    (fun s2 hs2 => absurd hs2 (List.not_mem_nil s2))
    (show getIndexPure dcC3 ([1], fileC3).2 "B:ch" (keyGroup "g.k") = .ok ([0], [2])
      by decide)
    (by decide)

/-- A control fixture whose only key is known from the cache and whose
registry entry for S has zero segments. -/
def dcC7a : DataCollection :=
  { instrument_sources := ∅, control_sources := {"S"}, train_ids := [],
    source_file_mapping := [("S", [])], index_cache := [],
    source_keys := [("S", {"k"})] }

/-- A file for control source S whose train-ID array is all zeros (so the
segment train-ID list is empty) and whose dataset for k is empty. -/
def fileC7 : H5File :=
  { fileId := 7, indexTrainIds := [0], dataSourceIds := ["CONTROL/S"],
    indexAreas := [], datasets := [("/CONTROL/S/k", [])],
    visitKeys := [("/CONTROL/S", {"k"})] }

/-- The collection holding `fileC7`: one segment, and it is empty. -/
def dcC7b : DataCollection :=
  { instrument_sources := ∅, control_sources := {"S"}, train_ids := [],
    source_file_mapping := [("S", [([], fileC7)])],
    index_cache := [], source_keys := [] }

/-- C7, witness: the zero-segment clause and the all-segments-empty clause of
the theorem applied to concrete collections. -/
theorem c7_empty_get_array_witness :
    getArray dcC7a "S" "k"
      = .error ("Exception: Unable to get data for source " ++ "S" ++ ", key " ++ "k"
          ++ ". Please report an issue so we can investigate") ∧
    getArray dcC7b "S" "k" = .ok ⟨[], []⟩ :=
  ⟨c7_empty_get_array.1 dcC7a "S" "k" (by decide) (by decide) (by decide),
   c7_empty_get_array.2.2.1 dcC7b "S" "k" [([], fileC7)] (by decide) (by decide)
     (by decide) (by decide)
     (by
       intro s2 hs2
       rw [List.mem_singleton] at hs2
       subst hs2
       exact ⟨rfl, [], by decide⟩)⟩


/-! ### Frame properties of the selection engine (claims C8 and C9) -/

theorem alookup_append {α β : Type} [DecidableEq α] (l1 l2 : List (α × β)) (a : α) :
    alookup (l1 ++ l2) a
      = match alookup l1 a with
        | some v => some v
        | none => alookup l2 a := by
  induction l1 with
  | nil => rfl
  | cons kv rest ih =>
      obtain ⟨k, v⟩ := kv
      simp only [List.cons_append, alookup]
      split
      · rfl
      · exact ih

/-- What `_keys_for_source` may do to its receiver: every attribute except the
per-source key map is untouched, and existing key-map entries survive (the
method only appends an entry for a source whose keys it had to read from a
file), and the result of a pure key lookup on any source is unchanged. -/
def KeyCacheExt (dc dc2 : DataCollection) : Prop :=
  dc2.instrument_sources = dc.instrument_sources ∧
  dc2.control_sources = dc.control_sources ∧
  dc2.train_ids = dc.train_ids ∧
  dc2.source_file_mapping = dc.source_file_mapping ∧
  dc2.index_cache = dc.index_cache ∧
  (∀ e ∈ dc.source_keys, e ∈ dc2.source_keys) ∧
  (∀ s2, keysForSourcePure dc2 s2 = keysForSourcePure dc s2)

theorem KeyCacheExt.refl (dc : DataCollection) : KeyCacheExt dc dc :=
  ⟨rfl, rfl, rfl, rfl, rfl, fun _ he => he, fun _ => rfl⟩

theorem KeyCacheExt.trans {dc1 dc2 dc3 : DataCollection}
    (h1 : KeyCacheExt dc1 dc2) (h2 : KeyCacheExt dc2 dc3) : KeyCacheExt dc1 dc3 :=
  ⟨h2.1.trans h1.1, h2.2.1.trans h1.2.1, h2.2.2.1.trans h1.2.2.1,
   h2.2.2.2.1.trans h1.2.2.2.1, h2.2.2.2.2.1.trans h1.2.2.2.2.1,
   fun e he => h2.2.2.2.2.2.1 e (h1.2.2.2.2.2.1 e he),
   fun s2 => (h2.2.2.2.2.2.2 s2).trans (h1.2.2.2.2.2.2 s2)⟩

theorem keysForSource_fst (dc : DataCollection) (s : String) :
    (keysForSource dc s).1 = keysForSourcePure dc s := by
  unfold keysForSource keysForSourcePure
  repeat' split
  all_goals rfl

theorem keysForSourcePure_append_cache (dc : DataCollection) (s s2 : String)
    (ks : Finset String) (hs : s ∈ dc.all_sources)
    (hcache : alookup dc.source_keys s = none)
    (hval : keysForSourcePure dc s = .ok ks) :
    keysForSourcePure { dc with source_keys := dc.source_keys ++ [(s, ks)] } s2
      = keysForSourcePure dc s2 := by
  have hlhs : keysForSourcePure { dc with source_keys := dc.source_keys ++ [(s, ks)] } s2
      = (if s2 ∈ dc.all_sources then
          match alookup (dc.source_keys ++ [(s, ks)]) s2 with
          | some ks2 => Except.ok ks2
          | none =>
              match alookup dc.source_file_mapping s2 with
              | none => Except.error ("KeyError: " ++ s2)
              | some [] => Except.error "TypeError: NoneType returned from keys lookup"
              | some ((_, f2) :: _) =>
                  match alookup f2.visitKeys (keysGroupPath dc s2) with
                  | some ks2 => Except.ok ks2
                  | none => Except.error ("KeyError: " ++ keysGroupPath dc s2)
        else Except.error ("SourceNameError: " ++ s2)) := rfl
  have hrhs : keysForSourcePure dc s2
      = (if s2 ∈ dc.all_sources then
          match alookup dc.source_keys s2 with
          | some ks2 => Except.ok ks2
          | none =>
              match alookup dc.source_file_mapping s2 with
              | none => Except.error ("KeyError: " ++ s2)
              | some [] => Except.error "TypeError: NoneType returned from keys lookup"
              | some ((_, f2) :: _) =>
                  match alookup f2.visitKeys (keysGroupPath dc s2) with
                  | some ks2 => Except.ok ks2
                  | none => Except.error ("KeyError: " ++ keysGroupPath dc s2)
        else Except.error ("SourceNameError: " ++ s2)) := rfl
  rw [hlhs, hrhs]
  by_cases hs2 : s2 ∈ dc.all_sources
  · rw [if_pos hs2, if_pos hs2, alookup_append]
    cases hl : alookup dc.source_keys s2 with
    | some v => rfl
    | none =>
        by_cases hs2s : s2 = s
        · subst hs2s
          unfold keysForSourcePure at hval
          rw [if_pos hs, hcache] at hval
          simp only [alookup, if_pos rfl]
          exact hval.symm
        · simp only [alookup, if_neg hs2s]
  · rw [if_neg hs2, if_neg hs2]

theorem keysForSource_ext (dc : DataCollection) (s : String) :
    KeyCacheExt dc (keysForSource dc s).2 := by
  unfold keysForSource
  split
  · rename_i hall
    split
    · exact KeyCacheExt.refl dc
    · rename_i hcache
      split
      · exact KeyCacheExt.refl dc
      · exact KeyCacheExt.refl dc
      · rename_i f segrest hmap
        split
        · rename_i ks hks
          refine ⟨rfl, rfl, rfl, rfl, rfl, ?_, ?_⟩
          · intro e he
            exact List.mem_append_left _ he
          · intro s2
            refine keysForSourcePure_append_cache dc s s2 ks hall hcache ?_
            unfold keysForSourcePure
            simp only [if_pos hall, hcache, hmap, hks]
        · exact KeyCacheExt.refl dc
  · exact KeyCacheExt.refl dc


theorem selectGlobAux_ext (sg kg : String) (srcs : List String) (dc : DataCollection)
    (acc : Finset (String × String)) :
    KeyCacheExt dc (selectGlobAux sg kg srcs dc acc).2 := by
  induction srcs generalizing dc acc with
  | nil => exact KeyCacheExt.refl dc
  | cons s rest ih =>
      unfold selectGlobAux
      split
      · split
        · exact ih dc _
        · rcases hkf : keysForSource dc s with ⟨e, dc2⟩
          have hext := keysForSource_ext dc s
          rw [hkf] at hext
          cases e with
          | error err => simp only [hkf]; exact hext
          | ok ks => simp only [hkf]; exact hext.trans (ih dc2 _)
      · exact ih dc acc

theorem selectGlob_ext (dc : DataCollection) (sg kg : String) :
    KeyCacheExt dc (selectGlob dc sg kg).2 := by
  unfold selectGlob
  rcases haux : selectGlobAux sg kg (sortedSources dc.all_sources) dc ∅ with ⟨e, dc2⟩
  have hext := selectGlobAux_ext sg kg (sortedSources dc.all_sources) dc ∅
  rw [haux] at hext
  cases e with
  | error err => exact hext
  | ok matched =>
      simp only []
      split
      · exact hext
      · exact hext

theorem expandGlobPairs_ext (dc : DataCollection) (pairs : List (String × String))
    (acc : Finset (String × String)) :
    KeyCacheExt dc (expandGlobPairs dc pairs acc).2 := by
  induction pairs generalizing dc acc with
  | nil => exact KeyCacheExt.refl dc
  | cons p rest ih =>
      obtain ⟨sg, kg⟩ := p
      unfold expandGlobPairs
      rcases hsel : selectGlob dc sg kg with ⟨e, dc2⟩
      have hext := selectGlob_ext dc sg kg
      rw [hsel] at hext
      cases e with
      | error err => exact hext
      | ok matched =>
          simp only []
          split
          · exact hext
          · exact hext.trans (ih dc2 _)

theorem expandSelection_ext (dc : DataCollection) (sel : Selector) :
    KeyCacheExt dc (expandSelection dc sel).2 := by
  cases sel with
  | set pairs => exact KeyCacheExt.refl dc
  | dict entries =>
      cases h : expandDictEntries dc entries with
      | error e =>
          simp only [expandSelection, h]
          exact KeyCacheExt.refl dc
      | ok r =>
          simp only [expandSelection, h]
          exact KeyCacheExt.refl dc
  | globList pairs => exact expandGlobPairs_ext dc pairs ∅
  | other => exact KeyCacheExt.refl dc

theorem select_ext (dc : DataCollection) (arg : SelectArg) :
    KeyCacheExt dc (select dc arg).2 := by
  unfold select
  rcases h1 : (match arg with
    | SelectArg.glob sg kg => selectGlob dc sg kg
    | SelectArg.sel s => expandSelection dc s) with ⟨e1, dc1⟩
  rw [h1]
  have hext1 : KeyCacheExt dc dc1 := by
    cases arg with
    | glob sg kg =>
        have h1b : selectGlob dc sg kg = (e1, dc1) := h1
        have := selectGlob_ext dc sg kg
        rw [h1b] at this
        exact this
    | sel s =>
        have h1b : expandSelection dc s = (e1, dc1) := h1
        have := expandSelection_ext dc s
        rw [h1b] at this
        exact this
  cases e1 with
  | error err => exact hext1
  | ok sel0 =>
      simp only []
      rcases h2 : expandSelection dc1 (.set sel0) with ⟨e2, dc2⟩
      have hext2 : KeyCacheExt dc1 dc2 := by
        have := expandSelection_ext dc1 (.set sel0)
        rw [h2] at this
        exact this
      cases e2 with
      | error err => exact hext1.trans hext2
      | ok selection =>
          simp only []
          split
          · exact hext1.trans hext2
          · exact hext1.trans hext2

theorem unpackKeyEntries_error_of_bad (keep : String → Bool)
    (sks : List (String × Finset String))
    (hbad : ∃ e ∈ sks, e.1.toList.length ≠ 2) :
    ∃ err, unpackKeyEntries keep sks = .error err := by
  induction sks with
  | nil =>
      rcases hbad with ⟨e, he, _⟩
      cases he
  | cons tv rest ih =>
      obtain ⟨t, v⟩ := tv
      unfold unpackKeyEntries
      rcases htl : t.toList with _ | ⟨a, _ | ⟨b, _ | ⟨c, cs⟩⟩⟩
      · exact ⟨_, rfl⟩
      · exact ⟨_, rfl⟩
      · have hrest : ∃ e ∈ rest, e.1.toList.length ≠ 2 := by
          rcases hbad with ⟨e, he, hlen⟩
          rcases List.mem_cons.mp he with rfl | he2
          · exact absurd (by rw [htl]; rfl) hlen
          · exact ⟨e, he2, hlen⟩
        obtain ⟨err, herr⟩ := ih hrest
        simp only [herr]
        exact ⟨err, rfl⟩
      · simp only [List.length_cons]
        split
        · exact ⟨_, rfl⟩
        · exact ⟨_, rfl⟩

theorem selectTrains_error_of_bad_keys (dc : DataCollection) (tr : TrainRange)
    (hbad : ∃ e ∈ dc.source_keys, e.1.toList.length ≠ 2) :
    ∀ res, selectTrains dc tr ≠ .ok res := by
  intro res h
  unfold selectTrains at h
  split at h
  · cases h
  · split at h
    · cases h
    · split at h
      · cases h
      · rename_i sks hsks
        obtain ⟨err, herr⟩ := unpackKeyEntries_error_of_bad _ _ hbad
        rw [herr] at hsks
        cases hsks

/-- C9, counterexample: a glob selection that has to read the keys of a source
from its file caches them on the receiver, so `select` mutates the receiver:
its per-source key map changes from empty to an entry for the source. -/
theorem c9_counterexample :
    (select dcC1a (.glob "A" "k")).2 ≠ dcC1a ∧
    (select dcC1a (.glob "A" "k")).2.source_keys = [("A", {"k"})] ∧
    dcC1a.source_keys = [] := by
  exact ⟨by decide, by decide, by decide⟩

/-- C9 (amended): `select` and `select_trains` leave the receiver source
sets, train-ID list, registry and index cache unchanged, and `select` only
ever appends to the receiver per-source key map, as a cache, when a glob
selection reads keys from files (pure key lookups are unaffected);
`select_trains` never mutates the receiver but, whenever the key map holds a
source name that is not exactly two characters long, it raises a `ValueError`
instead of returning a new collection, because its dict comprehension iterates
the key strings of the map and unpacks each of them as a pair. -/
theorem c9_select_frame_amended :
    (∀ (dc : DataCollection) (arg : SelectArg), KeyCacheExt dc (select dc arg).2) ∧
    (∀ (dc : DataCollection) (tr : TrainRange),
      (∃ e ∈ dc.source_keys, e.1.toList.length ≠ 2) →
      ∀ res, selectTrains dc tr ≠ .ok res) :=
  ⟨select_ext, fun dc tr hbad => selectTrains_error_of_bad_keys dc tr hbad⟩

/-- C9, witness: the frame property at a concrete glob selection, and the
`select_trains` failure on a concrete collection whose key map holds the
one-character source name S. -/
theorem c9_select_frame_amended_witness :
    KeyCacheExt dcC1a (select dcC1a (.glob "A" "k")).2 ∧
    ∀ res, selectTrains dcC7a (TrainRange.by_index none none none) ≠ .ok res :=
  ⟨c9_select_frame_amended.1 dcC1a (.glob "A" "k"),
   c9_select_frame_amended.2 dcC7a (TrainRange.by_index none none none)
     ⟨("S", {"k"}), by decide, by decide⟩⟩


/-! ### Glob selection membership (claim C8) -/

theorem mem_matchedKeys {dc : DataCollection} {source kg : String} {ks : Finset String}
    {p : String × String} :
    p ∈ matchedKeys dc source kg ks ↔
      p.1 = source ∧ p.2 ∈ ks ∧
        keyMatchesFor dc.control_sources source kg p.2 = true := by
  unfold matchedKeys
  rw [Finset.mem_image]
  constructor
  · rintro ⟨k, hk, rfl⟩
    rw [Finset.mem_filter] at hk
    exact ⟨rfl, hk.1, hk.2⟩
  · rintro ⟨h1, h2, h3⟩
    refine ⟨p.2, Finset.mem_filter.mpr ⟨h2, h3⟩, ?_⟩
    rw [← h1]

theorem matchedKeys_congr {dc dc2 : DataCollection}
    (h : dc2.control_sources = dc.control_sources) (source kg : String) (ks : Finset String) :
    matchedKeys dc2 source kg ks = matchedKeys dc source kg ks := by
  unfold matchedKeys
  rw [h]

theorem selectGlobAux_mem (sg kg : String) (srcs : List String) (dc : DataCollection)
    (acc matched : Finset (String × String)) (dcF : DataCollection)
    (h : selectGlobAux sg kg srcs dc acc = (.ok matched, dcF)) (p : String × String) :
    p ∈ matched ↔ p ∈ acc ∨ ∃ s ∈ srcs, globMatch sg s = true ∧
      ((kg = "*" ∧ p = (s, "*")) ∨
       (kg ≠ "*" ∧ ∃ ks, keysForSourcePure dc s = .ok ks ∧ p.1 = s ∧ p.2 ∈ ks ∧
         keyMatchesFor dc.control_sources s kg p.2 = true)) := by
  induction srcs generalizing dc acc with
  | nil =>
      unfold selectGlobAux at h
      rw [Prod.mk.injEq] at h
      obtain rfl := Except.ok.inj h.1
      simp
  | cons s rest ih =>
      unfold selectGlobAux at h
      by_cases hg : globMatch sg s = true
      · rw [if_pos hg] at h
        by_cases hstar : kg = "*"
        · rw [if_pos hstar] at h
          rw [ih dc _ h]
          simp only [Finset.mem_insert, List.mem_cons]
          constructor
          · rintro ((hp | hacc) | ⟨s2, hs2, hcond⟩)
            · exact Or.inr ⟨s, Or.inl rfl, hg, Or.inl ⟨hstar, hp⟩⟩
            · exact Or.inl hacc
            · exact Or.inr ⟨s2, Or.inr hs2, hcond⟩
          · rintro (hacc | ⟨s2, hmem, hglob, hcond⟩)
            · exact Or.inl (Or.inr hacc)
            · rcases hmem with rfl | hs2
              · rcases hcond with ⟨h5, hp⟩ | ⟨h5, _⟩
                · exact Or.inl (Or.inl hp)
                · exact absurd hstar h5
              · exact Or.inr ⟨s2, hs2, hglob, hcond⟩
        · rw [if_neg hstar] at h
          rcases hkf : keysForSource dc s with ⟨e, dc2⟩
          rw [hkf] at h
          have hext := keysForSource_ext dc s
          rw [hkf] at hext
          cases e with
          | error err => cases h
          | ok ks =>
              have hext2 : KeyCacheExt dc dc2 := hext
              have hpure : keysForSourcePure dc s = .ok ks := by
                rw [← keysForSource_fst dc s, hkf]
              rw [ih dc2 _ h]
              rw [Finset.mem_union,
                matchedKeys_congr hext2.2.1 s kg ks, mem_matchedKeys]
              have hpures : ∀ s2, keysForSourcePure dc2 s2 = keysForSourcePure dc s2 :=
                hext2.2.2.2.2.2.2
              simp only [List.mem_cons, hpures, hext2.2.1]
              constructor
              · rintro ((h2 | h2) | ⟨s2, hs2, h3, h4⟩)
                · exact Or.inl h2
                · exact Or.inr ⟨s, Or.inl rfl, hg,
                    Or.inr ⟨hstar, ks, hpure, h2.1, h2.2.1, h2.2.2⟩⟩
                · exact Or.inr ⟨s2, Or.inr hs2, h3, h4⟩
              · rintro (h2 | ⟨s2, (rfl | hs2), h3, h4⟩)
                · exact Or.inl (Or.inl h2)
                · rcases h4 with ⟨h5, _⟩ | ⟨h5, ks2, hks2, h6, h7, h8⟩
                  · exact absurd h5 hstar
                  · refine Or.inl (Or.inr ⟨h6, ?_, h8⟩)
                    rw [hpure] at hks2
                    obtain rfl := Except.ok.inj hks2
                    exact h7
                · exact Or.inr ⟨s2, hs2, h3, h4⟩
      · rw [if_neg hg] at h
        rw [ih dc _ h]
        simp only [List.mem_cons]
        constructor
        · rintro (h2 | ⟨s2, hs2, h3⟩)
          · exact Or.inl h2
          · exact Or.inr ⟨s2, Or.inr hs2, h3⟩
        · rintro (h2 | ⟨s2, (rfl | hs2), h3, h4⟩)
          · exact Or.inl h2
          · exact absurd h3 hg
          · exact Or.inr ⟨s2, hs2, h3, h4⟩


theorem keyMatchesFor_ctrl {ctrl : Finset String} {source kg key : String}
    (hc : source ∈ ctrl) (hv : keyGlobVerbatim kg = false) :
    keyMatchesFor ctrl source kg key = ctrlKeyMatch kg key := by
  unfold keyMatchesFor
  rw [if_pos]
  simp [hc, hv]

theorem keyMatchesFor_inst {ctrl : Finset String} {source kg key : String}
    (hc : source ∉ ctrl) :
    keyMatchesFor ctrl source kg key = globMatch kg key := by
  unfold keyMatchesFor
  rw [if_neg]
  simp [hc]

theorem ctrlKeyMatch_iff {kg key : String} :
    ctrlKeyMatch kg key = true ↔
      globMatch kg key = true ∨ globMatch (kg ++ ".value") key = true := by
  unfold ctrlKeyMatch
  rw [Bool.or_eq_true]

/-- C8: in glob selection over the sources matched by the source glob, the
star key glob matches unconditionally (the pair `(source, "*")` is recorded
without consulting any key); for a control source and a key glob that does not
end in `.value` or `*`, a key is selected exactly when it is a key of the
source and the glob matches it literally or the glob with `.value` appended
matches it; for a non-control (instrument) source the key glob is matched
exactly. -/
theorem c8_glob_matching (dc : DataCollection) (sg kg : String)
    (matched : Finset (String × String)) (dcF : DataCollection)
    (h : selectGlob dc sg kg = (.ok matched, dcF)) :
    (∀ s, s ∈ dc.all_sources → globMatch sg s = true → kg = "*" →
      (s, "*") ∈ matched) ∧
    (∀ s k ks, s ∈ dc.all_sources → globMatch sg s = true → kg ≠ "*" →
      s ∈ dc.control_sources → keyGlobVerbatim kg = false →
      keysForSourcePure dc s = .ok ks →
      ((s, k) ∈ matched ↔ k ∈ ks ∧
        (globMatch kg k = true ∨ globMatch (kg ++ ".value") k = true))) ∧
    (∀ s k ks, s ∈ dc.all_sources → globMatch sg s = true → kg ≠ "*" →
      s ∉ dc.control_sources →
      keysForSourcePure dc s = .ok ks →
      ((s, k) ∈ matched ↔ k ∈ ks ∧ globMatch kg k = true)) := by
  unfold selectGlob at h
  rcases haux : selectGlobAux sg kg (sortedSources dc.all_sources) dc ∅ with ⟨e, dc2⟩
  rw [haux] at h
  cases e with
  | error err =>
      rw [Prod.mk.injEq] at h
      cases h.1
  | ok m =>
      simp only [] at h
      split at h
      · rw [Prod.mk.injEq] at h
        cases h.1
      · rw [Prod.mk.injEq] at h
        obtain rfl := Except.ok.inj h.1
        have hmem := fun p => selectGlobAux_mem sg kg _ dc ∅ m dc2 haux p
        refine ⟨?_, ?_, ?_⟩
        · intro s hs hg hstar
          exact (hmem (s, "*")).mpr
            (Or.inr ⟨s, mem_sortedSources.mpr hs, hg, Or.inl ⟨hstar, rfl⟩⟩)
        · intro s k ks hs hg hstar hctrl hverb hksrc
          constructor
          · intro hm
            rcases (hmem (s, k)).mp hm with hemp | ⟨s2, hs2, hg2, hcase⟩
            · exact absurd hemp (Finset.not_mem_empty _)
            · rcases hcase with ⟨hkstar, _⟩ | ⟨_, ks2, hks2, hp1, hp2, hmatch⟩
              · exact absurd hkstar hstar
              · simp only [] at hp1
                subst hp1
                rw [hksrc] at hks2
                obtain rfl := Except.ok.inj hks2
                rw [keyMatchesFor_ctrl hctrl hverb] at hmatch
                exact ⟨hp2, ctrlKeyMatch_iff.mp hmatch⟩
          · rintro ⟨hk, hor⟩
            refine (hmem (s, k)).mpr (Or.inr ⟨s, mem_sortedSources.mpr hs, hg,
              Or.inr ⟨hstar, ks, hksrc, rfl, hk, ?_⟩⟩)
            rw [keyMatchesFor_ctrl hctrl hverb]
            exact ctrlKeyMatch_iff.mpr hor
        · intro s k ks hs hg hstar hctrl hksrc
          constructor
          · intro hm
            rcases (hmem (s, k)).mp hm with hemp | ⟨s2, hs2, hg2, hcase⟩
            · exact absurd hemp (Finset.not_mem_empty _)
            · rcases hcase with ⟨hkstar, _⟩ | ⟨_, ks2, hks2, hp1, hp2, hmatch⟩
              · exact absurd hkstar hstar
              · simp only [] at hp1
                subst hp1
                rw [hksrc] at hks2
                obtain rfl := Except.ok.inj hks2
                rw [keyMatchesFor_inst hctrl] at hmatch
                exact ⟨hp2, hmatch⟩
          · rintro ⟨hk, hmatch⟩
            refine (hmem (s, k)).mpr (Or.inr ⟨s, mem_sortedSources.mpr hs, hg,
              Or.inr ⟨hstar, ks, hksrc, rfl, hk, ?_⟩⟩)
            rw [keyMatchesFor_inst hctrl]
            exact hmatch

def fileC8 : H5File :=
  { fileId := 8, indexTrainIds := [1], dataSourceIds := ["CONTROL/S", "INSTRUMENT/B:ch/g"],
    indexAreas := [], datasets := [],
    visitKeys := [("/CONTROL/S", {"x", "x.value"}), ("/INSTRUMENT/B:ch", {"g.k"})] }

def dcC8 : DataCollection :=
  { instrument_sources := {"B:ch"}, control_sources := {"S"}, train_ids := [1],
    source_file_mapping := [("S", [([1], fileC8)]), ("B:ch", [([1], fileC8)])],
    index_cache := [], source_keys := [] }

def dcC8after : DataCollection :=
  { dcC8 with
    source_keys := [("B:ch", ({"g.k"} : Finset String)),
                    ("S", ({"x", "x.value"} : Finset String))] }

theorem c8_glob_matching_witness :
    ("B:ch", "g.k") ∈ ({("B:ch", "g.k")} : Finset (String × String)) :=
  ((c8_glob_matching dcC8 "*" "g.k" {("B:ch", "g.k")} dcC8after (by decide)).2.2
      "B:ch" "g.k" {"g.k"} (by decide) (by decide) (by decide) (by decide)
      (by decide)).mpr (by decide)


/-! ### C5: concatenation order in `get_array` and `get_series` -/

end KaraboData
